import Mathlib

/-!
# Balance-decision helpers of `server/schedulers/utils.go`

A shallow embedding of the scheduler utilities of PD (`package schedulers`) and
the properties its specification states about them.

Conventions of the embedding.

* `uint64` and `int64` values are natural numbers and integers; the functions
  below perform no integer arithmetic that could wrap.
* `float64` arithmetic has two readings. `shouldBalance` and
  `adjustBalanceLimit` read the numbers as exact rationals, with no rounding,
  infinity or NaN. `shouldBalanceF64` and `adjustBalanceLimitF64` compute as the
  code does, in binary64 with rounding to nearest, infinities and NaN (type
  `F64`); where the two readings differ the second is the code.
* Calls through the interfaces `schedule.Cluster` and `schedule.Selector`, the
  metrics counter and the logger are threaded through an explicit `World`,
  which records every call in order.
* The clock of the taint cache is an explicit argument: `Put`, the lookup and
  the sweep take the time at which they happen, in nanoseconds.
-/

namespace Schedulers

/-! ## Data model -/

/-- Modelled from the spec: `core.ResourceKind` (declared outside this file),
the enumerated tag that says which per-store count is being balanced: the
leader count or the region count. -/
inductive ResourceKind where
  | LeaderKind
  | RegionKind
  deriving DecidableEq, Repr

/-- Modelled from the spec: `core.StoreInfo` (declared outside this file), seen
through the three methods this file calls: the unique identifier `GetId()`,
the liveness flag `IsUp()` and the resource count per kind
`ResourceCount(kind)`. -/
structure StoreInfo where
  GetId : Nat
  IsUp : Bool
  ResourceCount : ResourceKind → Nat

/-- Modelled from the spec: `metapb.Peer` (declared outside this file), one
replica of a region bound to one store, with the identity allocation gave it. -/
structure Peer where
  Id : Nat
  StoreId : Nat
  deriving DecidableEq, Repr

/-- Modelled from the spec: `core.RegionInfo` (declared outside this file): a
unique identifier, an ordered collection of peers and a designated leader. -/
structure RegionInfo where
  Id : Nat
  Peers : List Peer
  Leader : Option Peer
  deriving DecidableEq, Repr

/-- Modelled from the spec: `RegionInfo.GetStorePeer` (defined outside this
file), the peer of the region that resides on the given store, absent when the
region has no peer there. -/
def RegionInfo.GetStorePeer (r : RegionInfo) (storeID : Nat) : Option Peer :=
  r.Peers.find? (fun peer => peer.StoreId == storeID)

/-- Modelled from the spec: `schedule.Filter` (declared outside this file), a
predicate that admits or rejects a store. This file only hands filters on to
the selector. -/
structure Filter where
  Admit : StoreInfo → Bool

/-- Modelled from the spec: `schedule.Cluster` (declared outside this file), the
snapshot of the cluster state. `GetStores` is the store list; `followerRegion`
and `leaderRegion` give what the random region lookups restricted to follower
and to leader peers answer for a store during the call; `allocPeer` is the
allocation of a new peer for a store, which may fail and which acts on the
identifier-allocation state `σ`. -/
structure Cluster (σ : Type) where
  GetStores : List StoreInfo
  followerRegion : Nat → Option RegionInfo
  leaderRegion : Nat → Option RegionInfo
  allocPeer : σ → Nat → Except String Peer × σ

/-- Modelled from the spec: `schedule.Selector` (declared outside this file), the
pluggable strategy with its source-selection and target-selection
capabilities. -/
structure Selector (σ : Type) where
  source : Cluster σ → List StoreInfo → List Filter → Option StoreInfo
  target : Cluster σ → List StoreInfo → List Filter → Option StoreInfo

/-! ## Effects -/

/-- One call made through a collaborator: the selector, a region lookup, the
allocation, the metrics counter or the logger. -/
inductive Event where
  | selectSource
  | selectTarget
  | randFollowerRegion (storeID : Nat)
  | randLeaderRegion (storeID : Nat)
  | allocPeer (storeID : Nat)
  | counterInc (schedulerName reason : String)
  | logErrorf (format err : String)
  deriving DecidableEq, Repr

/-- What lies outside the snapshot and can change during a call: the
identifier-allocation state, the values of `schedulerCounter` per pair of
labels, and the record of the calls made so far, oldest first. -/
structure World (σ : Type) where
  allocState : σ
  schedulerCounter : String → String → Nat
  trace : List Event

/-- Appends one call to the record. -/
def World.record {σ : Type} (w : World σ) (e : Event) : World σ :=
  { w with trace := w.trace ++ [e] }

/-- The call `s.SelectSource(cluster, stores, filters...)`. -/
def Selector.SelectSource {σ : Type} (s : Selector σ) (cluster : Cluster σ)
    (stores : List StoreInfo) (filters : List Filter) (w : World σ) :
    Option StoreInfo × World σ :=
  (s.source cluster stores filters, w.record Event.selectSource)

/-- The call `s.SelectTarget(cluster, stores, filters...)`. -/
def Selector.SelectTarget {σ : Type} (s : Selector σ) (cluster : Cluster σ)
    (stores : List StoreInfo) (filters : List Filter) (w : World σ) :
    Option StoreInfo × World σ :=
  (s.target cluster stores filters, w.record Event.selectTarget)

/-- The call `cluster.RandFollowerRegion(storeID)`. -/
def Cluster.RandFollowerRegion {σ : Type} (cluster : Cluster σ) (storeID : Nat)
    (w : World σ) : Option RegionInfo × World σ :=
  (cluster.followerRegion storeID, w.record (Event.randFollowerRegion storeID))

/-- The call `cluster.RandLeaderRegion(storeID)`. -/
def Cluster.RandLeaderRegion {σ : Type} (cluster : Cluster σ) (storeID : Nat)
    (w : World σ) : Option RegionInfo × World σ :=
  (cluster.leaderRegion storeID, w.record (Event.randLeaderRegion storeID))

/-- The call `cluster.AllocPeer(storeID)`: it runs the allocation on the current
identifier-allocation state and stores the state it leaves. -/
def Cluster.AllocPeer {σ : Type} (cluster : Cluster σ) (storeID : Nat)
    (w : World σ) : Except String Peer × World σ :=
  let r := cluster.allocPeer w.allocState storeID
  (r.1, { (w.record (Event.allocPeer storeID)) with allocState := r.2 })

/-- The statement `schedulerCounter.WithLabelValues(name, reason).Inc()`. -/
def counterInc {σ : Type} (schedulerName reason : String) (w : World σ) : World σ :=
  { (w.record (Event.counterInc schedulerName reason)) with
    schedulerCounter := fun n r =>
      if n = schedulerName ∧ r = reason then w.schedulerCounter n r + 1
      else w.schedulerCounter n r }

/-- The statement `log.Errorf(format, err)`. -/
def logErrorf {σ : Type} (format err : String) (w : World σ) : World σ :=
  w.record (Event.logErrorf format err)

/-! ## Peer migration planning -/

/-- The function `scheduleRemovePeer`: schedules a region to remove the peer. -/
def scheduleRemovePeer {σ : Type} (cluster : Cluster σ) (schedulerName : String)
    (s : Selector σ) (filters : List Filter) (w : World σ) :
    (Option RegionInfo × Option Peer) × World σ :=
  let stores := cluster.GetStores
  let (source, w) := s.SelectSource cluster stores filters w
  match source with
  | none =>
    let w := counterInc schedulerName "no_store" w
    ((none, none), w)
  | some source =>
    let (region, w) := cluster.RandFollowerRegion source.GetId w
    let (region, w) :=
      match region with
      | none => cluster.RandLeaderRegion source.GetId w
      | some region => (some region, w)
    match region with
    | none =>
      let w := counterInc schedulerName "no_region" w
      ((none, none), w)
    | some region => ((some region, region.GetStorePeer source.GetId), w)

/-- The function `scheduleAddPeer`: schedules a new peer. -/
def scheduleAddPeer {σ : Type} (cluster : Cluster σ) (s : Selector σ)
    (filters : List Filter) (w : World σ) : Option Peer × World σ :=
  let stores := cluster.GetStores
  let (target, w) := s.SelectTarget cluster stores filters w
  match target with
  | none => (none, w)
  | some target =>
    let (r, w) := cluster.AllocPeer target.GetId w
    match r with
    | Except.error err =>
      let w := logErrorf "failed to allocate peer: %v" err w
      (none, w)
    | Except.ok newPeer => (some newPeer, w)

/-! ## Minimum and maximum -/

/-- The function `minUint64`. -/
def minUint64 (a b : Nat) : Nat :=
  if a < b then a else b

/-- The function `maxUint64`. -/
def maxUint64 (a b : Nat) : Nat :=
  if a > b then a else b

/-! ## Dynamic balance limit -/

/-- Modelled from the spec: the error value that the standard-deviation routine
of the statistics package (outside this file) returns for an empty sample. -/
inductive StatsError where
  | EmptyInput
  deriving DecidableEq, Repr

/-- A non-negative real number given exactly by its square: the value denoted
is the square root of `sq`. This is how the `float64` result of the
standard-deviation routine is represented without rounding. -/
structure Root where
  sq : ℚ
  deriving DecidableEq

/-- The conversion `uint64(x)` of a non-negative `float64` to an unsigned
integer, which truncates towards zero: for the number denoted by `r`, the
largest natural number whose square is at most `r.sq`. -/
def Root.toUint64 (r : Root) : Nat :=
  Nat.sqrt ⌊r.sq⌋₊

/-- Modelled from the spec: the arithmetic mean of a sample, as used by the
statistics package (outside this file). -/
def Mean (input : List ℚ) : ℚ :=
  input.sum / input.length

/-- Modelled from the spec: the population variance of a sample, the mean of
the squared distances to the mean, as used by the statistics package (outside
this file). -/
def PopulationVariance (input : List ℚ) : ℚ :=
  (input.map (fun x => (x - Mean input) ^ 2)).sum / input.length

/-- Modelled from the spec: `stats.StandardDeviation` (outside this file), the
population standard deviation of a sample together with an error. The spec says
that an empty sample yields deviation 0; it is then that the error is set. -/
def StandardDeviation (input : List ℚ) : Root × Option StatsError :=
  if input.length = 0 then
    (⟨0⟩, some StatsError.EmptyInput)
  else
    (⟨PopulationVariance input⟩, none)

/-- The function `adjustBalanceLimit`: the loop appends the resource count of
every store that is up, and the limit is the truncated standard deviation of
these counts, or 1 if that is larger. -/
def adjustBalanceLimit {σ : Type} (cluster : Cluster σ) (kind : ResourceKind) : Nat :=
  let stores := cluster.GetStores
  let counts : List ℚ :=
    stores.foldl
      (fun counts s => if s.IsUp then counts ++ [(s.ResourceCount kind : ℚ)] else counts)
      []
  let (limit, _) := StandardDeviation counts
  maxUint64 1 limit.toUint64

/-- The sample in the words of the spec: the resource counts, for the given
kind, of exactly the stores of the snapshot that are up, in snapshot order. -/
def upCounts {σ : Type} (cluster : Cluster σ) (kind : ResourceKind) : List ℚ :=
  (cluster.GetStores.filter (fun s => s.IsUp)).map (fun s => (s.ResourceCount kind : ℚ))

/-! ## Balance feasibility -/

/-- The function `shouldBalance`: decides whether moving `moveSize` from the
source to the target still leaves the source with the greater weighted score. -/
def shouldBalance (sourceSize : Int) (sourceWeight : ℚ) (targetSize : Int)
    (targetWeight : ℚ) (moveSize : ℚ) : Bool :=
  if targetWeight = 0 then
    false
  else if sourceWeight = 0 then
    true
  else
    decide (((sourceSize : ℚ) - moveSize) / sourceWeight
      > ((targetSize : ℚ) + moveSize) / targetWeight)

/-! ## Reading the record of calls -/

/-- The store identifiers of the allocation calls in a record, in order. -/
def allocCalls (evs : List Event) : List Nat :=
  evs.filterMap (fun e =>
    match e with
    | Event.allocPeer storeID => some storeID
    | _ => none)

/-- The label pairs of the counter increments in a record, in order. -/
def counterIncs (evs : List Event) : List (String × String) :=
  evs.filterMap (fun e =>
    match e with
    | Event.counterInc schedulerName reason => some (schedulerName, reason)
    | _ => none)

/-- The store identifiers of the region lookups, follower or leader, in a
record, in order. -/
def regionLookups (evs : List Event) : List Nat :=
  evs.filterMap (fun e =>
    match e with
    | Event.randFollowerRegion storeID => some storeID
    | Event.randLeaderRegion storeID => some storeID
    | _ => none)

/-! ## Taint cache -/

/-- The constant `time.Second` of Go's `time` package: a `time.Duration` is a
number of nanoseconds. -/
def Second : Int := 1000000000

/-- The constant `time.Minute` of Go's `time` package. -/
def Minute : Int := 60 * Second

/-- The constant `taintCacheGCInterval`. -/
def taintCacheGCInterval : Int := Second * 5

/-- The constant `taintCacheTTL`. -/
def taintCacheTTL : Int := Minute * 5

/-- Modelled from the spec: `cache.TTLUint64` (declared outside this file), the
key-value suppression set with its two fixed parameters, the sweep interval and
the time-to-live, and its entries: a store identifier with its insertion
time. Times are in nanoseconds. -/
structure TTLUint64 where
  gcInterval : Int
  ttl : Int
  items : List (Nat × Int)
  deriving DecidableEq, Repr

/-- Modelled from the spec: `cache.NewIDTTL` (defined outside this file), which
takes the sweep interval and the time-to-live and gives an empty cache. -/
def NewIDTTL (gcInterval ttl : Int) : TTLUint64 :=
  { gcInterval := gcInterval, ttl := ttl, items := [] }

/-- The function `newTaintCache`: creates a TTL cache to hold stores that are
not able to schedule operators. -/
def newTaintCache : TTLUint64 :=
  NewIDTTL taintCacheGCInterval taintCacheTTL

/-- Modelled from the spec: `Put(storeID)` of the cache (defined outside this
file), at the time `now`: records or refreshes the taint of the store with the
current time. -/
def TTLUint64.Put (c : TTLUint64) (storeID : Nat) (now : Int) : TTLUint64 :=
  { c with items := (storeID, now) :: c.items.filter (fun e => e.1 != storeID) }

/-- Modelled from the spec: `IsTainted(storeID)` of the cache (defined outside
this file), at the time `now`: true iff an entry exists and is not older than
the time-to-live at query time. -/
def TTLUint64.IsTainted (c : TTLUint64) (storeID : Nat) (now : Int) : Bool :=
  c.items.any (fun e => e.1 == storeID && decide (now - e.2 ≤ c.ttl))

/-- Modelled from the spec: one background sweep of the cache (defined outside
this file), at the time `now`: removes all entries older than the
time-to-live. -/
def TTLUint64.sweep (c : TTLUint64) (now : Int) : TTLUint64 :=
  { c with items := c.items.filter (fun e => decide (now - e.2 ≤ c.ttl)) }

/-- What can happen to the cache between two queries: a `Put` or a sweep, each
at its time. -/
inductive CacheOp where
  | put (storeID : Nat) (now : Int)
  | sweep (now : Int)
  deriving DecidableEq, Repr

/-- The cache after one operation. -/
def TTLUint64.step (c : TTLUint64) (op : CacheOp) : TTLUint64 :=
  match op with
  | CacheOp.put storeID now => c.Put storeID now
  | CacheOp.sweep now => c.sweep now

/-- The cache after a sequence of operations, oldest first. -/
def TTLUint64.run (c : TTLUint64) (ops : List CacheOp) : TTLUint64 :=
  ops.foldl TTLUint64.step c

/-- Whether an operation is a `Put` of the given store. -/
def CacheOp.isPutOf (op : CacheOp) (storeID : Nat) : Bool :=
  match op with
  | CacheOp.put k _ => k == storeID
  | CacheOp.sweep _ => false

/-! ## Binary64 arithmetic

The `float64` reading of the code: every operation computes the exact result and
rounds it to the nearest binary64 number, a tie going to the even significand.
-/

/-- Counts the halvings that bring `n` below 2, at most `fuel` of them. -/
def log2Aux : ℕ → ℕ → ℕ
  | 0, _ => 0
  | fuel + 1, n => if n < 2 then 0 else log2Aux fuel (n / 2) + 1

/-- The position of the leading binary digit of `n`: the largest `l` with
`2 ^ l ≤ n`, and 0 for `n = 0`. -/
def natLog2 (n : ℕ) : ℕ :=
  log2Aux n n

/-- The binary exponent of a non-zero rational `x`: the integer `e` with
`2 ^ e ≤ |x| < 2 ^ (e + 1)`. -/
def binExp (x : ℚ) : ℤ :=
  let c : ℤ := (natLog2 x.num.natAbs : ℤ) - (natLog2 x.den : ℤ)
  if (2 : ℚ) ^ c ≤ |x| then c else c - 1

/-- Rounds a rational to the nearest integer, a tie to the even one. -/
def roundHalfEven (x : ℚ) : ℤ :=
  if x - ⌊x⌋ < 1 / 2 then ⌊x⌋
  else if 1 / 2 < x - ⌊x⌋ then ⌊x⌋ + 1
  else if ⌊x⌋ % 2 = 0 then ⌊x⌋
  else ⌊x⌋ + 1

/-- The exponent of the spacing of the binary64 numbers around `x`: 52 below
the binary exponent of `x`, which is taken to be at least -1022, as below that
the numbers are subnormal and equally spaced. -/
def gridExp (x : ℚ) : ℤ :=
  max (binExp x) (-1022) - 52

/-- Rounding to the nearest multiple of the spacing around `x`, a tie to the
even multiple: the binary64 rounding of `x` before overflow is looked at. -/
def roundQ (x : ℚ) : ℚ :=
  (roundHalfEven (x / 2 ^ gridExp x) : ℚ) * 2 ^ gridExp x

/-- The digits of the integer square root of `n` below position `i`, added to
`r` from the top down. -/
def sqrtBits (n : ℕ) : ℕ → ℕ → ℕ
  | 0, r => r
  | i + 1, r => sqrtBits n i (if (r + 2 ^ i) * (r + 2 ^ i) ≤ n then r + 2 ^ i else r)

/-- The integer square root of `n`: the largest `r` with `r * r ≤ n`. -/
def isqrt (n : ℕ) : ℕ :=
  sqrtBits n (natLog2 n / 2 + 1) 0

/-- A `float64` value: a finite number, an infinity or NaN. The finite values
the operations produce are binary64 numbers of magnitude below `2 ^ 1024`. The
sign of a zero is not modelled: `fin 0` stands for both zeros, which all
comparisons treat alike. -/
inductive F64 where
  | fin (v : ℚ)
  | pinf
  | ninf
  | nan
  deriving DecidableEq

/-- The magnitude `2 ^ 1024` from which a rounded value overflows. -/
@[irreducible]
def overflowBound : ℚ :=
  2 ^ 1024

/-- Overflow: a rounded value of magnitude `2 ^ 1024` or more is an infinity. -/
def F64.norm (y : ℚ) : F64 :=
  if overflowBound ≤ y then F64.pinf
  else if y ≤ -overflowBound then F64.ninf
  else F64.fin y

/-- The `float64` nearest to a rational, a tie going to the even significand. -/
def F64.ofRat (x : ℚ) : F64 :=
  F64.norm (roundQ x)

/-- The conversion `float64(k)` of an integer. -/
def F64.ofInt (k : Int) : F64 :=
  F64.ofRat (k : ℚ)

/-- The conversion `float64(n)` of an unsigned integer. -/
def F64.ofNat (n : Nat) : F64 :=
  F64.ofRat (n : ℚ)

/-- The negation `-x`. -/
def F64.neg : F64 → F64
  | F64.fin v => F64.fin (-v)
  | F64.pinf => F64.ninf
  | F64.ninf => F64.pinf
  | F64.nan => F64.nan

/-- The sum `x + y`. -/
def F64.add : F64 → F64 → F64
  | F64.fin a, F64.fin b => F64.ofRat (a + b)
  | F64.nan, _ => F64.nan
  | _, F64.nan => F64.nan
  | F64.pinf, F64.ninf => F64.nan
  | F64.ninf, F64.pinf => F64.nan
  | F64.pinf, _ => F64.pinf
  | _, F64.pinf => F64.pinf
  | F64.ninf, _ => F64.ninf
  | _, F64.ninf => F64.ninf

/-- The difference `x - y`. -/
def F64.sub (a b : F64) : F64 :=
  F64.add a (F64.neg b)

/-- The product `x * y`. -/
def F64.mul : F64 → F64 → F64
  | F64.fin a, F64.fin b => F64.ofRat (a * b)
  | F64.nan, _ => F64.nan
  | _, F64.nan => F64.nan
  | F64.pinf, F64.fin b => if b = 0 then F64.nan else if 0 < b then F64.pinf else F64.ninf
  | F64.fin a, F64.pinf => if a = 0 then F64.nan else if 0 < a then F64.pinf else F64.ninf
  | F64.ninf, F64.fin b => if b = 0 then F64.nan else if 0 < b then F64.ninf else F64.pinf
  | F64.fin a, F64.ninf => if a = 0 then F64.nan else if 0 < a then F64.ninf else F64.pinf
  | F64.pinf, F64.pinf => F64.pinf
  | F64.ninf, F64.ninf => F64.pinf
  | F64.pinf, F64.ninf => F64.ninf
  | F64.ninf, F64.pinf => F64.ninf

/-- The quotient `x / y`. A zero divisor is taken as the positive zero; the code
modelled here divides by weights it has tested to be non-zero and by the length
of a non-empty sample only. -/
def F64.div : F64 → F64 → F64
  | F64.fin a, F64.fin b =>
    if b = 0 then (if a = 0 then F64.nan else if 0 < a then F64.pinf else F64.ninf)
    else F64.ofRat (a / b)
  | F64.nan, _ => F64.nan
  | _, F64.nan => F64.nan
  | F64.fin _, F64.pinf => F64.fin 0
  | F64.fin _, F64.ninf => F64.fin 0
  | F64.pinf, F64.fin b => if 0 ≤ b then F64.pinf else F64.ninf
  | F64.ninf, F64.fin b => if 0 ≤ b then F64.ninf else F64.pinf
  | F64.pinf, F64.pinf => F64.nan
  | F64.pinf, F64.ninf => F64.nan
  | F64.ninf, F64.pinf => F64.nan
  | F64.ninf, F64.ninf => F64.nan

/-- The comparison `x > y`, false when either side is NaN. -/
def F64.gt : F64 → F64 → Bool
  | F64.fin a, F64.fin b => decide (b < a)
  | F64.pinf, F64.fin _ => true
  | F64.pinf, F64.ninf => true
  | F64.fin _, F64.ninf => true
  | _, _ => false

/-- The comparison `x >= y`, false when either side is NaN. -/
def F64.ge : F64 → F64 → Bool
  | F64.fin a, F64.fin b => decide (b ≤ a)
  | F64.pinf, F64.fin _ => true
  | F64.pinf, F64.ninf => true
  | F64.pinf, F64.pinf => true
  | F64.fin _, F64.ninf => true
  | F64.ninf, F64.ninf => true
  | _, _ => false

/-- The test `x == 0`. -/
def F64.isZero : F64 → Bool
  | F64.fin v => decide (v = 0)
  | _ => false

/-- The exponent of the spacing of the binary64 numbers around the square root
of `a`. -/
def sqrtGridExp (a : ℚ) : ℤ :=
  max (binExp a / 2) (-1022) - 52

/-- The binary64 number nearest to the square root of a non-negative rational
`a`, a tie going to the even significand: with `q` the spacing around the
root, the root lies between `r * q` and `(r + 1) * q` for the integer square
root `r` of `a / q ^ 2`, and it is compared with the midpoint through its
square. -/
def sqrtQ (a : ℚ) : ℚ :=
  let q : ℚ := 2 ^ sqrtGridExp a
  let t : ℚ := a / q ^ 2
  let r : ℕ := isqrt ⌊t⌋₊
  let mid : ℚ := ((r : ℚ) + 1 / 2) ^ 2
  let n : ℕ :=
    if t < mid then r
    else if mid < t then r + 1
    else if r % 2 = 0 then r
    else r + 1
  (n : ℚ) * q

/-- The square root `math.Sqrt(x)`, correctly rounded. -/
def F64.sqrt : F64 → F64
  | F64.fin a => if a < 0 then F64.nan else F64.norm (sqrtQ a)
  | F64.pinf => F64.pinf
  | F64.ninf => F64.nan
  | F64.nan => F64.nan

/-- The conversion `uint64(x)`, which truncates towards zero. For a value that
is negative, NaN, infinite or too large Go leaves the result to the
implementation; here a finite value gives `⌊v⌋₊` (0 when negative) and the
other values give 0. -/
def F64.toUint64 : F64 → Nat
  | F64.fin v => ⌊v⌋₊
  | _ => 0

/-- The function `shouldBalance` in `float64` arithmetic, as the code computes
it: the sizes are converted with `float64(...)`, and the subtraction, the
addition and the two divisions each round their result. -/
def shouldBalanceF64 (sourceSize : Int) (sourceWeight : F64) (targetSize : Int)
    (targetWeight : F64) (moveSize : F64) : Bool :=
  if targetWeight.isZero then
    false
  else if sourceWeight.isZero then
    true
  else
    F64.gt (F64.div (F64.sub (F64.ofInt sourceSize) moveSize) sourceWeight)
      (F64.div (F64.add (F64.ofInt targetSize) moveSize) targetWeight)

/-- Modelled from the spec: the sum of a sample as the statistics package
(outside this file) computes it in `float64`, adding the elements from the left
to 0. -/
def SumF64 (input : List F64) : F64 :=
  input.foldl F64.add (F64.fin 0)

/-- Modelled from the spec: the arithmetic mean of a sample in `float64`, the
sum divided by the converted length. -/
def MeanF64 (input : List F64) : F64 :=
  F64.div (SumF64 input) (F64.ofNat input.length)

/-- Modelled from the spec: the population variance of a sample in `float64`:
the squared distances to the mean are added from the left to 0 and the total
is divided by the converted length. -/
def PopulationVarianceF64 (input : List F64) : F64 :=
  let m := MeanF64 input
  let variance :=
    input.foldl (fun variance n => F64.add variance (F64.mul (F64.sub n m) (F64.sub n m)))
      (F64.fin 0)
  F64.div variance (F64.ofNat input.length)

/-- Modelled from the spec: `stats.StandardDeviation` (outside this file) in
`float64`: the square root of the population variance, together with an error.
The spec says that an empty sample yields deviation 0; it is then that the error
is set. -/
def StandardDeviationF64 (input : List F64) : F64 × Option StatsError :=
  if input.length = 0 then
    (F64.fin 0, some StatsError.EmptyInput)
  else
    (F64.sqrt (PopulationVarianceF64 input), none)

/-- The place of a `float64` value on the number line, with the infinities at
`2 ^ 1024` and `-2 ^ 1024`. -/
def F64.rank : F64 → ℚ
  | F64.fin v => v
  | F64.pinf => overflowBound
  | F64.ninf => -overflowBound
  | F64.nan => 0

/-- A value that is not NaN and, if finite, of magnitude below `2 ^ 1024`. -/
def F64.IsNumber : F64 → Prop
  | F64.fin v => -overflowBound < v ∧ v < overflowBound
  | F64.pinf => True
  | F64.ninf => True
  | F64.nan => False

/-- The function `adjustBalanceLimit` in `float64` arithmetic, as the code
computes it: the loop appends `float64(s.ResourceCount(kind))` for every store
that is up, and the limit is the truncated deviation of these values, or 1 if
that is larger. -/
def adjustBalanceLimitF64 {σ : Type} (cluster : Cluster σ) (kind : ResourceKind) : Nat :=
  let stores := cluster.GetStores
  let counts : List F64 :=
    stores.foldl
      (fun counts s => if s.IsUp then counts ++ [F64.ofNat (s.ResourceCount kind)] else counts)
      []
  let (limit, _) := StandardDeviationF64 counts
  maxUint64 1 limit.toUint64

/-- The `float64` sample in the words of the spec: the converted resource
counts, for the given kind, of exactly the stores of the snapshot that are up,
in snapshot order. -/
def upCountsF64 {σ : Type} (cluster : Cluster σ) (kind : ResourceKind) : List F64 :=
  (cluster.GetStores.filter (fun s => s.IsUp)).map (fun s => F64.ofNat (s.ResourceCount kind))

/-! ## Example snapshots -/

/-- A store with the given identifier and liveness that reports the count `n`
for every resource kind. -/
def exampleStore (id : Nat) (up : Bool) (n : Nat) : StoreInfo :=
  { GetId := id, IsUp := up, ResourceCount := fun _ => n }

/-- A snapshot with the given stores that hosts no region and whose allocation
hands out the state as the next peer identifier. -/
def exampleCluster (stores : List StoreInfo) : Cluster Nat :=
  { GetStores := stores
    followerRegion := fun _ => none
    leaderRegion := fun _ => none
    allocPeer := fun next storeID => (Except.ok { Id := next, StoreId := storeID }, next + 1) }

/-- A selector that proposes the first store of the list, as source and as
target, whatever the filters. -/
def exampleSelector : Selector Nat :=
  { source := fun _ stores _ => stores.head?
    target := fun _ stores _ => stores.head? }

/-- A snapshot with the single store 1, on which the follower lookup finds
region 10 (peers on stores 1 and 2, led from store 2) and the leader lookup
finds region 20 (peers on stores 1 and 3, led from store 1). -/
def exampleRegionCluster : Cluster Nat :=
  { exampleCluster [exampleStore 1 true 2] with
    followerRegion := fun storeID =>
      if storeID = 1 then
        some { Id := 10, Peers := [{ Id := 101, StoreId := 2 }, { Id := 102, StoreId := 1 }],
               Leader := some { Id := 101, StoreId := 2 } }
      else none
    leaderRegion := fun storeID =>
      if storeID = 1 then
        some { Id := 20, Peers := [{ Id := 201, StoreId := 1 }, { Id := 202, StoreId := 3 }],
               Leader := some { Id := 201, StoreId := 1 } }
      else none }

/-- A world in which nothing has happened yet: allocation state 0, all counters
0 and no call recorded. -/
def exampleWorld : World Nat :=
  { allocState := 0, schedulerCounter := fun _ _ => 0, trace := [] }

/-- A snapshot with the given stores that hosts no region and whose allocation
always fails and leaves the allocation state as it is. -/
def exampleFailingCluster (stores : List StoreInfo) : Cluster Nat :=
  { exampleCluster stores with
    allocPeer := fun next _ => (Except.error "no identifier left", next) }

/-- A snapshot whose stores are all up, numbered from 1, and report the given
counts for every resource kind. -/
def exampleUpCluster (counts : List Nat) : Cluster Nat :=
  exampleCluster (counts.enum.map (fun p => exampleStore (p.1 + 1) true p.2))

/-! ## Theorems -/

/-! ### Auxiliary facts -/

/-- For positive weights the comparison of the two quotients in `shouldBalance`
is the cross-multiplied comparison. -/
theorem shouldBalance_pos_iff (sourceSize targetSize : Int)
    (sourceWeight targetWeight moveSize : ℚ)
    (hs : 0 < sourceWeight) (ht : 0 < targetWeight) :
    shouldBalance sourceSize sourceWeight targetSize targetWeight moveSize = true
      ↔ ((targetSize : ℚ) + moveSize) * sourceWeight
          < ((sourceSize : ℚ) - moveSize) * targetWeight := by
  simp only [shouldBalance, ne_of_gt hs, ne_of_gt ht, if_false, decide_eq_true_eq, gt_iff_lt]
  rw [div_lt_div_iff₀ ht hs]

/-- The function `maxUint64` is the maximum of its arguments. -/
theorem maxUint64_eq_max (a b : Nat) : maxUint64 a b = max a b := by
  unfold maxUint64
  split_ifs with h
  · exact (max_eq_left (le_of_lt h)).symm
  · exact (max_eq_right (not_lt.mp h)).symm

/-- The loop of `adjustBalanceLimit` appends, to what it has collected, the
counts of the up stores in order. -/
theorem collect_counts_eq (kind : ResourceKind) (stores : List StoreInfo) (acc : List ℚ) :
    stores.foldl
        (fun counts s => if s.IsUp then counts ++ [(s.ResourceCount kind : ℚ)] else counts)
        acc
      = acc ++ (stores.filter (fun s => s.IsUp)).map (fun s => (s.ResourceCount kind : ℚ)) := by
  induction stores generalizing acc with
  | nil => simp
  | cons s rest ih =>
    rw [List.foldl_cons, ih]
    cases hs : s.IsUp <;> simp [hs]

/-- The limit is computed from the sample `upCounts`. -/
theorem adjustBalanceLimit_eq_upCounts {σ : Type} (cluster : Cluster σ)
    (kind : ResourceKind) :
    adjustBalanceLimit cluster kind
      = maxUint64 1 (StandardDeviation (upCounts cluster kind)).1.toUint64 := by
  unfold adjustBalanceLimit upCounts
  simp only [collect_counts_eq, List.nil_append]

/-- Truncating the number denoted by a `Root` is truncating the real square
root of its square. -/
theorem Root.toUint64_eq_floor_sqrt (r : Root) :
    r.toUint64 = ⌊Real.sqrt (r.sq : ℝ)⌋₊ := by
  unfold Root.toUint64
  symm
  rcases le_or_lt 0 r.sq with h | h
  · have hR : (0 : ℝ) ≤ (r.sq : ℝ) := by exact_mod_cast h
    rw [Nat.floor_eq_iff (Real.sqrt_nonneg _)]
    have hfl : ((⌊r.sq⌋₊ : ℕ) : ℝ) ≤ (r.sq : ℝ) := by
      have := Nat.floor_le h
      exact_mod_cast this
    have hlt : (r.sq : ℝ) < ((⌊r.sq⌋₊ : ℕ) : ℝ) + 1 := by
      have := Nat.lt_floor_add_one r.sq
      exact_mod_cast this
    constructor
    · apply Real.le_sqrt_of_sq_le
      have h1 : Nat.sqrt ⌊r.sq⌋₊ * Nat.sqrt ⌊r.sq⌋₊ ≤ ⌊r.sq⌋₊ := Nat.sqrt_le _
      have h2 : ((Nat.sqrt ⌊r.sq⌋₊ : ℕ) : ℝ) * ((Nat.sqrt ⌊r.sq⌋₊ : ℕ) : ℝ)
          ≤ ((⌊r.sq⌋₊ : ℕ) : ℝ) := by exact_mod_cast h1
      nlinarith
    · have h1 : ⌊r.sq⌋₊ < (Nat.sqrt ⌊r.sq⌋₊ + 1) * (Nat.sqrt ⌊r.sq⌋₊ + 1) :=
        Nat.lt_succ_sqrt _
      have h2 : ((⌊r.sq⌋₊ : ℕ) : ℝ) + 1
          ≤ (((Nat.sqrt ⌊r.sq⌋₊ : ℕ) : ℝ) + 1) * (((Nat.sqrt ⌊r.sq⌋₊ : ℕ) : ℝ) + 1) := by
        exact_mod_cast h1
      have hpos : (0 : ℝ) ≤ ((Nat.sqrt ⌊r.sq⌋₊ : ℕ) : ℝ) + 1 := by positivity
      rw [Real.sqrt_lt' (by positivity)]
      nlinarith
  · have hR : (r.sq : ℝ) ≤ 0 := by exact_mod_cast (le_of_lt h)
    rw [Real.sqrt_eq_zero_of_nonpos hR, Nat.floor_of_nonpos (le_of_lt h)]
    simp

/-- The mean of a non-empty sample whose elements all equal `a` is `a`. -/
theorem Mean_of_all_eq (xs : List ℚ) (a : ℚ) (hne : xs ≠ [])
    (h : ∀ x ∈ xs, x = a) : Mean xs = a := by
  have hrep : xs = List.replicate xs.length a := List.eq_replicate_iff.mpr ⟨rfl, h⟩
  have hlen : (xs.length : ℚ) ≠ 0 := by
    have : xs.length ≠ 0 := fun h0 => hne (List.length_eq_zero.mp h0)
    exact_mod_cast this
  unfold Mean
  rw [hrep, List.sum_replicate, List.length_replicate, nsmul_eq_mul]
  field_simp

/-- The population variance of a sample whose elements all equal `a` is 0. -/
theorem PopulationVariance_of_all_eq (xs : List ℚ) (a : ℚ)
    (h : ∀ x ∈ xs, x = a) : PopulationVariance xs = 0 := by
  rcases eq_or_ne xs [] with hnil | hne
  · simp [hnil, PopulationVariance]
  · unfold PopulationVariance
    rw [Mean_of_all_eq xs a hne h]
    have hz : (xs.map (fun x => (x - a) ^ 2)).sum = 0 := by
      apply List.sum_eq_zero
      intro y hy
      rcases List.mem_map.mp hy with ⟨x, hx, rfl⟩
      rw [h x hx]; simp
    rw [hz, zero_div]

/-- A sample of variance 0, and the empty sample, give the limit 1. -/
theorem adjustBalanceLimit_of_variance_zero {σ : Type} (cluster : Cluster σ)
    (kind : ResourceKind) (h : PopulationVariance (upCounts cluster kind) = 0) :
    adjustBalanceLimit cluster kind = 1 := by
  rw [adjustBalanceLimit_eq_upCounts]
  unfold StandardDeviation
  split_ifs <;> simp [Root.toUint64, h, maxUint64]

/-- The mean of a non-empty sample lies between any bounds of its elements. -/
theorem Mean_mem_Icc (xs : List ℚ) (lo hi : ℚ) (hne : xs ≠ [])
    (h : ∀ x ∈ xs, lo ≤ x ∧ x ≤ hi) : lo ≤ Mean xs ∧ Mean xs ≤ hi := by
  have hlen : (0 : ℚ) < (xs.length : ℚ) := by
    have : 0 < xs.length := List.length_pos.mpr hne
    exact_mod_cast this
  have hlow : xs.length • lo ≤ xs.sum := List.card_nsmul_le_sum xs lo (fun x hx => (h x hx).1)
  have hupp : xs.sum ≤ xs.length • hi := List.sum_le_card_nsmul xs hi (fun x hx => (h x hx).2)
  rw [nsmul_eq_mul] at hlow hupp
  unfold Mean
  constructor
  · rw [le_div_iff₀ hlen]; linarith
  · rw [div_le_iff₀ hlen]; linarith

/-- The population variance of a sample with elements between 0 and `b` is at
most `b ^ 2`. -/
theorem PopulationVariance_le_sq (xs : List ℚ) (b : ℚ)
    (h : ∀ x ∈ xs, 0 ≤ x ∧ x ≤ b) : PopulationVariance xs ≤ b ^ 2 := by
  rcases eq_or_ne xs [] with hnil | hne
  · simp [hnil, PopulationVariance]; positivity
  · have hlen : (0 : ℚ) < (xs.length : ℚ) := by
      have : 0 < xs.length := List.length_pos.mpr hne
      exact_mod_cast this
    have hm := Mean_mem_Icc xs 0 b hne h
    have hsum : (xs.map (fun x => (x - Mean xs) ^ 2)).sum
        ≤ (xs.map (fun x => (x - Mean xs) ^ 2)).length • b ^ 2 := by
      apply List.sum_le_card_nsmul
      intro y hy
      rcases List.mem_map.mp hy with ⟨x, hx, rfl⟩
      have hx2 := h x hx
      nlinarith [hx2.1, hx2.2, hm.1, hm.2]
    rw [List.length_map, nsmul_eq_mul] at hsum
    unfold PopulationVariance
    rw [div_le_iff₀ hlen]
    linarith

/-- The limit fits the result type: when every up store reports a count of at
most `b`, with `1 ≤ b`, the limit is at most `b`; so for counts below `2 ^ 64`
the truncation in `adjustBalanceLimit` stays below `2 ^ 64`. -/
theorem adjustBalanceLimit_le_of_counts_le {σ : Type} (cluster : Cluster σ)
    (kind : ResourceKind) (b : Nat) (hb : 1 ≤ b)
    (h : ∀ s ∈ cluster.GetStores, s.IsUp = true → s.ResourceCount kind ≤ b) :
    adjustBalanceLimit cluster kind ≤ b := by
  have hall : ∀ x ∈ upCounts cluster kind, (0 : ℚ) ≤ x ∧ x ≤ (b : ℚ) := by
    intro x hx
    unfold upCounts at hx
    rcases List.mem_map.mp hx with ⟨s, hs, rfl⟩
    rw [List.mem_filter] at hs
    exact ⟨by positivity, by exact_mod_cast h s hs.1 hs.2⟩
  have hvar := PopulationVariance_le_sq _ _ hall
  have hroot : ∀ v : ℚ, v ≤ (b : ℚ) ^ 2 → Nat.sqrt ⌊v⌋₊ ≤ b := by
    intro v hv
    have h1 : ⌊v⌋₊ ≤ b * b := by
      have hmono : ⌊v⌋₊ ≤ ⌊((b * b : ℕ) : ℚ)⌋₊ := Nat.floor_mono (by push_cast; nlinarith)
      rwa [Nat.floor_natCast] at hmono
    calc Nat.sqrt ⌊v⌋₊ ≤ Nat.sqrt (b * b) := Nat.sqrt_le_sqrt h1
      _ = b := Nat.sqrt_eq b
  rw [adjustBalanceLimit_eq_upCounts, maxUint64_eq_max]
  apply max_le hb
  unfold StandardDeviation Root.toUint64
  split_ifs
  · simp
  · exact hroot _ hvar

/-- Operations on the cache keep its time-to-live. -/
theorem TTLUint64.run_ttl (c : TTLUint64) (ops : List CacheOp) : (c.run ops).ttl = c.ttl := by
  induction ops generalizing c with
  | nil => rfl
  | cons op rest ih =>
    have hstep : (c.step op).ttl = c.ttl := by
      cases op <;> rfl
    show ((c.step op).run rest).ttl = c.ttl
    rw [ih, hstep]

/-- After `Put x t0`, and as long as no later `Put x` happens, every entry of
the cache for `x` carries the insertion time `t0`. -/
theorem TTLUint64.entries_after_Put (c : TTLUint64) (x : Nat) (t0 : Int)
    (post : List CacheOp) (hpost : ∀ op ∈ post, op.isPutOf x = false) :
    ∀ e ∈ ((c.Put x t0).run post).items, e.1 = x → e.2 = t0 := by
  have hinv : ∀ (ops : List CacheOp) (d : TTLUint64),
      (∀ op ∈ ops, op.isPutOf x = false) →
      (∀ e ∈ d.items, e.1 = x → e.2 = t0) →
      ∀ e ∈ (d.run ops).items, e.1 = x → e.2 = t0 := by
    intro ops
    induction ops with
    | nil => intro d _ hd; exact hd
    | cons op rest ih =>
      intro d hops hd
      apply ih (d.step op) (fun o ho => hops o (List.mem_cons_of_mem _ ho))
      have hop := hops op (List.mem_cons_self _ _)
      cases op with
      | put k now =>
        have hk : k ≠ x := by simpa [CacheOp.isPutOf] using hop
        intro e he hex
        simp only [TTLUint64.step, TTLUint64.Put, List.mem_cons, List.mem_filter] at he
        rcases he with rfl | ⟨he, _⟩
        · exact absurd hex hk
        · exact hd e he hex
      | sweep now =>
        intro e he hex
        simp only [TTLUint64.step, TTLUint64.sweep, List.mem_filter] at he
        exact hd e he.1 hex
  apply hinv post (c.Put x t0) hpost
  intro e he hex
  simp only [TTLUint64.Put, List.mem_cons, List.mem_filter] at he
  rcases he with rfl | ⟨_, hne⟩
  · rfl
  · simp [hex] at hne

/-- After `Put x t0`, as long as no later `Put x` happens and every later
operation happens no later than the query, the entry `(x, t0)` is in the cache
while its age is at most the time-to-live. -/
theorem TTLUint64.entry_kept_after_Put (c : TTLUint64) (x : Nat) (t0 t : Int)
    (post : List CacheOp) (hpost : ∀ op ∈ post, op.isPutOf x = false)
    (htime : ∀ now, CacheOp.sweep now ∈ post → now ≤ t) (hage : t - t0 ≤ c.ttl) :
    (x, t0) ∈ ((c.Put x t0).run post).items := by
  have hinv : ∀ (ops : List CacheOp) (d : TTLUint64), d.ttl = c.ttl →
      (∀ op ∈ ops, op.isPutOf x = false) →
      (∀ now, CacheOp.sweep now ∈ ops → now ≤ t) →
      (x, t0) ∈ d.items → (x, t0) ∈ (d.run ops).items := by
    intro ops
    induction ops with
    | nil => intro d _ _ _ hd; exact hd
    | cons op rest ih =>
      intro d httl hops htm hd
      have hop := hops op (List.mem_cons_self _ _)
      have hstep : (d.step op).ttl = c.ttl := by
        cases op <;> exact httl
      apply ih (d.step op) hstep (fun o ho => hops o (List.mem_cons_of_mem _ ho))
        (fun now hn => htm now (List.mem_cons_of_mem _ hn))
      cases op with
      | put k now =>
        have hk : k ≠ x := by simpa [CacheOp.isPutOf] using hop
        simp only [TTLUint64.step, TTLUint64.Put, List.mem_cons, List.mem_filter]
        right
        exact ⟨hd, by simpa using fun h => hk h.symm⟩
      | sweep now =>
        have hnow : now ≤ t := htm now (List.mem_cons_self _ _)
        simp only [TTLUint64.step, TTLUint64.sweep, List.mem_filter]
        refine ⟨hd, ?_⟩
        simp only [decide_eq_true_eq]
        rw [httl]
        omega
  apply hinv post (c.Put x t0) rfl hpost htime
  simp [TTLUint64.Put]

/-- The store `x` stays tainted from its `Put` until the time-to-live has
elapsed: with no later `Put x` and every later sweep no later than the query,
`IsTainted x` at time `t` is true exactly when the age `t - t0` is at most the
time-to-live. -/
theorem TTLUint64.IsTainted_after_Put_iff (c : TTLUint64) (x : Nat) (t0 t : Int)
    (post : List CacheOp) (hpost : ∀ op ∈ post, op.isPutOf x = false)
    (htime : ∀ now, CacheOp.sweep now ∈ post → now ≤ t) :
    ((c.Put x t0).run post).IsTainted x t = true ↔ t - t0 ≤ c.ttl := by
  have httl : ((c.Put x t0).run post).ttl = c.ttl := by
    rw [TTLUint64.run_ttl]; rfl
  constructor
  · intro h
    unfold TTLUint64.IsTainted at h
    rcases List.any_eq_true.mp h with ⟨e, he, hcond⟩
    simp only [Bool.and_eq_true, beq_iff_eq, decide_eq_true_eq] at hcond
    rw [TTLUint64.entries_after_Put c x t0 post hpost e he hcond.1, httl] at hcond
    exact hcond.2
  · intro hage
    unfold TTLUint64.IsTainted
    apply List.any_eq_true.mpr
    refine ⟨(x, t0), TTLUint64.entry_kept_after_Put c x t0 t post hpost htime hage, ?_⟩
    simp only [Bool.and_eq_true, beq_iff_eq, decide_eq_true_eq]
    rw [httl]
    exact ⟨trivial, hage⟩

/-- The squared distances of a sample with elements between `lo` and `hi` to
any point `c` add up to at most a bound that is linear in the sum of the
sample. -/
theorem sum_sq_dist_le (xs : List ℚ) (lo hi c : ℚ) (h : ∀ x ∈ xs, lo ≤ x ∧ x ≤ hi) :
    (xs.map (fun x => (x - c) ^ 2)).sum
      ≤ (lo + hi - 2 * c) * xs.sum + (xs.length : ℚ) * (c ^ 2 - lo * hi) := by
  induction xs with
  | nil => simp
  | cons x rest ih =>
    have hrest := ih (fun y hy => h y (List.mem_cons_of_mem _ hy))
    have hx := h x (List.mem_cons_self _ _)
    simp only [List.map_cons, List.sum_cons, List.length_cons, Nat.cast_add, Nat.cast_one]
    nlinarith [mul_nonneg (sub_nonneg.mpr hx.1) (sub_nonneg.mpr hx.2)]

/-- The population variance of a non-empty sample with elements between `lo`
and `hi` is at most the square of half the spread `hi - lo`. -/
theorem PopulationVariance_le_half_spread_sq (xs : List ℚ) (lo hi : ℚ) (hne : xs ≠ [])
    (h : ∀ x ∈ xs, lo ≤ x ∧ x ≤ hi) : PopulationVariance xs ≤ ((hi - lo) / 2) ^ 2 := by
  have hlen : (0 : ℚ) < (xs.length : ℚ) := by
    have : 0 < xs.length := List.length_pos.mpr hne
    exact_mod_cast this
  have hsum : xs.sum = (xs.length : ℚ) * Mean xs := by
    unfold Mean
    field_simp
  have hb := sum_sq_dist_le xs lo hi (Mean xs) h
  rw [hsum] at hb
  unfold PopulationVariance
  rw [div_le_iff₀ hlen]
  have hsq : 0 ≤ (Mean xs - (hi + lo) / 2) ^ 2 := sq_nonneg _
  have hprod : 0 ≤ (xs.length : ℚ) * (Mean xs - (hi + lo) / 2) ^ 2 :=
    mul_nonneg (le_of_lt hlen) hsq
  nlinarith

/-! ### Binary64 rounding and order -/

theorem log2Aux_spec (fuel n : ℕ) (hn : 0 < n) (hf : n ≤ fuel) :
    2 ^ log2Aux fuel n ≤ n ∧ n < 2 ^ (log2Aux fuel n + 1) := by
  induction fuel generalizing n with
  | zero => omega
  | succ fuel ih =>
    unfold log2Aux
    split_ifs with h
    · constructor <;> simp <;> omega
    · have h2 : 0 < n / 2 := by omega
      have h3 : n / 2 ≤ fuel := by omega
      have := ih (n / 2) h2 h3
      constructor
      · rw [pow_succ]; omega
      · rw [pow_succ]; omega

/-- The leading binary digit of a positive `n` is at position `natLog2 n`. -/
theorem natLog2_spec (n : ℕ) (hn : 0 < n) :
    2 ^ natLog2 n ≤ n ∧ n < 2 ^ (natLog2 n + 1) :=
  log2Aux_spec n n hn (le_refl n)

/-- The binary exponent brackets a non-zero rational between two powers of 2. -/
theorem binExp_spec (x : ℚ) (hx : x ≠ 0) :
    (2 : ℚ) ^ binExp x ≤ |x| ∧ |x| < (2 : ℚ) ^ (binExp x + 1) := by
  have hp : 0 < x.num.natAbs := Int.natAbs_pos.mpr (Rat.num_ne_zero.mpr hx)
  have hq : 0 < x.den := x.den_pos
  obtain ⟨hp1, hp2⟩ := natLog2_spec _ hp
  obtain ⟨hq1, hq2⟩ := natLog2_spec _ hq
  have habs : |x| = (x.num.natAbs : ℚ) / (x.den : ℚ) := by
    have h1 : x = (x.num : ℚ) / (x.den : ℚ) := (Rat.num_div_den x).symm
    have hden : (0 : ℚ) < (x.den : ℚ) := by exact_mod_cast hq
    conv_lhs => rw [h1]
    rw [abs_div, abs_of_pos hden, Nat.cast_natAbs, Int.cast_abs]
  have hqpos : (0 : ℚ) < (x.den : ℚ) := by exact_mod_cast hq
  have hp1' : (2 : ℚ) ^ (natLog2 x.num.natAbs : ℤ) ≤ (x.num.natAbs : ℚ) := by
    rw [zpow_natCast]; exact_mod_cast hp1
  have hp2' : (x.num.natAbs : ℚ) < (2 : ℚ) ^ ((natLog2 x.num.natAbs : ℤ) + 1) := by
    have : (x.num.natAbs : ℚ) < (2 : ℚ) ^ (natLog2 x.num.natAbs + 1) := by exact_mod_cast hp2
    rw [show ((natLog2 x.num.natAbs : ℤ) + 1) = ((natLog2 x.num.natAbs + 1 : ℕ) : ℤ) by
      push_cast; rfl, zpow_natCast]
    exact this
  have hq1' : (2 : ℚ) ^ (natLog2 x.den : ℤ) ≤ (x.den : ℚ) := by
    rw [zpow_natCast]; exact_mod_cast hq1
  have hq2' : (x.den : ℚ) < (2 : ℚ) ^ ((natLog2 x.den : ℤ) + 1) := by
    have : (x.den : ℚ) < (2 : ℚ) ^ (natLog2 x.den + 1) := by exact_mod_cast hq2
    rw [show ((natLog2 x.den : ℤ) + 1) = ((natLog2 x.den + 1 : ℕ) : ℤ) by
      push_cast; rfl, zpow_natCast]
    exact this
  have h2 : (2 : ℚ) ≠ 0 := by norm_num
  set lp : ℤ := (natLog2 x.num.natAbs : ℤ) with hlp
  set lq : ℤ := (natLog2 x.den : ℤ) with hlq
  have hlow : (2 : ℚ) ^ (lp - lq - 1) ≤ |x| := by
    rw [habs, le_div_iff₀ hqpos]
    have e1 : (2 : ℚ) ^ (lp - lq - 1) * (2 : ℚ) ^ (lq + 1) = (2 : ℚ) ^ lp := by
      rw [← zpow_add₀ h2]; congr 1; ring
    have hpos : (0 : ℚ) < (2 : ℚ) ^ (lp - lq - 1) := by positivity
    calc (2 : ℚ) ^ (lp - lq - 1) * (x.den : ℚ)
        ≤ (2 : ℚ) ^ (lp - lq - 1) * (2 : ℚ) ^ (lq + 1) :=
          mul_le_mul_of_nonneg_left (le_of_lt hq2') (le_of_lt hpos)
      _ = (2 : ℚ) ^ lp := e1
      _ ≤ _ := hp1'
  have hhigh : |x| < (2 : ℚ) ^ (lp - lq + 1) := by
    rw [habs, div_lt_iff₀ hqpos]
    have e1 : (2 : ℚ) ^ (lp - lq + 1) * (2 : ℚ) ^ lq = (2 : ℚ) ^ (lp + 1) := by
      rw [← zpow_add₀ h2]; congr 1; ring
    have hpos : (0 : ℚ) < (2 : ℚ) ^ (lp - lq + 1) := by positivity
    calc (x.num.natAbs : ℚ) < (2 : ℚ) ^ (lp + 1) := hp2'
      _ = (2 : ℚ) ^ (lp - lq + 1) * (2 : ℚ) ^ lq := e1.symm
      _ ≤ (2 : ℚ) ^ (lp - lq + 1) * (x.den : ℚ) :=
          mul_le_mul_of_nonneg_left hq1' (le_of_lt hpos)
  unfold binExp
  simp only [← hlp, ← hlq]
  split_ifs with h
  · exact ⟨h, hhigh⟩
  · refine ⟨hlow, ?_⟩
    rw [show lp - lq - 1 + 1 = lp - lq by ring]
    exact not_le.mp h

theorem roundHalfEven_intCast (n : ℤ) : roundHalfEven (n : ℚ) = n := by
  unfold roundHalfEven
  simp

theorem roundHalfEven_ge_floor (x : ℚ) : ⌊x⌋ ≤ roundHalfEven x := by
  unfold roundHalfEven
  split_ifs <;> omega

theorem roundHalfEven_le_floor_succ (x : ℚ) : roundHalfEven x ≤ ⌊x⌋ + 1 := by
  unfold roundHalfEven
  split_ifs <;> omega

/-- Rounding to the nearest integer is monotone. -/
theorem roundHalfEven_mono {x y : ℚ} (h : x ≤ y) : roundHalfEven x ≤ roundHalfEven y := by
  have hfl : ⌊x⌋ ≤ ⌊y⌋ := Int.floor_mono h
  rcases lt_or_eq_of_le hfl with hlt | heq
  · calc roundHalfEven x ≤ ⌊x⌋ + 1 := roundHalfEven_le_floor_succ x
      _ ≤ ⌊y⌋ := hlt
      _ ≤ roundHalfEven y := roundHalfEven_ge_floor y
  · unfold roundHalfEven
    rw [heq]
    have hfr : x - (⌊y⌋ : ℚ) ≤ y - (⌊y⌋ : ℚ) := by linarith
    split_ifs <;> first | omega | (exfalso; linarith)

theorem gridExp_ge (x : ℚ) : -1074 ≤ gridExp x := by
  unfold gridExp
  have := le_max_right (binExp x) (-1022)
  omega

theorem two_zpow_pos (e : ℤ) : (0 : ℚ) < (2 : ℚ) ^ e := by positivity

theorem two_zpow_le {a b : ℤ} (h : a ≤ b) : (2 : ℚ) ^ a ≤ (2 : ℚ) ^ b :=
  zpow_le_zpow_right₀ (by norm_num) h

theorem two_zpow_lt_imp {a b : ℤ} (h : (2 : ℚ) ^ a < (2 : ℚ) ^ b) : a < b := by
  by_contra hn
  exact absurd (two_zpow_le (not_lt.mp hn)) (not_le.mpr h)

/-- A non-zero `x` lies below `2 ^ 53` spacings. -/
theorem abs_lt_grid (x : ℚ) (hx : x ≠ 0) : |x| < (2 : ℚ) ^ (gridExp x + 53) := by
  have h := (binExp_spec x hx).2
  have hle : binExp x + 1 ≤ gridExp x + 53 := by
    unfold gridExp
    have := le_max_left (binExp x) (-1022)
    omega
  exact lt_of_lt_of_le h (two_zpow_le hle)

/-- Above the subnormal range a non-zero `x` lies at or above `2 ^ 52` spacings. -/
theorem grid_le_abs (x : ℚ) (hx : x ≠ 0) (hg : -1074 < gridExp x) :
    (2 : ℚ) ^ (gridExp x + 52) ≤ |x| := by
  have h := (binExp_spec x hx).1
  have heq : gridExp x + 52 = binExp x := by
    unfold gridExp at hg ⊢
    rcases max_cases (binExp x) (-1022) with ⟨h1, _⟩ | ⟨h1, _⟩
    · rw [h1]; ring
    · rw [h1] at hg; omega
  rw [heq]
  exact h

/-- The spacing does not shrink as the magnitude grows. -/
theorem gridExp_mono {x y : ℚ} (hx : x ≠ 0) (hy : y ≠ 0) (h : |x| ≤ |y|) :
    gridExp x ≤ gridExp y := by
  by_contra hn
  have hlt : gridExp y < gridExp x := not_le.mp hn
  have hg : -1074 < gridExp x := lt_of_le_of_lt (gridExp_ge y) hlt
  have h1 := grid_le_abs x hx hg
  have h2 := abs_lt_grid y hy
  have h3 : (2 : ℚ) ^ (gridExp x + 52) < (2 : ℚ) ^ (gridExp y + 53) :=
    lt_of_le_of_lt (le_trans h1 h) h2
  have := two_zpow_lt_imp h3
  omega

theorem roundQ_zero : roundQ 0 = 0 := by
  unfold roundQ
  simp [roundHalfEven]

theorem roundQ_nonneg {x : ℚ} (hx : 0 ≤ x) : 0 ≤ roundQ x := by
  unfold roundQ
  have hq := two_zpow_pos (gridExp x)
  have h0 : (0 : ℚ) ≤ x / 2 ^ gridExp x := div_nonneg hx (le_of_lt hq)
  have h1 : (0 : ℤ) ≤ roundHalfEven (x / 2 ^ gridExp x) := by
    have := roundHalfEven_mono h0
    rwa [show ((0 : ℚ)) = ((0 : ℤ) : ℚ) by norm_num, roundHalfEven_intCast] at this
  have h2 : (0 : ℚ) ≤ (roundHalfEven (x / 2 ^ gridExp x) : ℚ) := by exact_mod_cast h1
  exact mul_nonneg h2 (le_of_lt hq)

theorem roundQ_nonpos {x : ℚ} (hx : x ≤ 0) : roundQ x ≤ 0 := by
  unfold roundQ
  have hq := two_zpow_pos (gridExp x)
  have h0 : x / 2 ^ gridExp x ≤ (0 : ℚ) := div_nonpos_of_nonpos_of_nonneg hx (le_of_lt hq)
  have h1 : roundHalfEven (x / 2 ^ gridExp x) ≤ (0 : ℤ) := by
    have := roundHalfEven_mono h0
    rwa [show ((0 : ℚ)) = ((0 : ℤ) : ℚ) by norm_num, roundHalfEven_intCast] at this
  have h2 : (roundHalfEven (x / 2 ^ gridExp x) : ℚ) ≤ 0 := by exact_mod_cast h1
  exact mul_nonpos_of_nonpos_of_nonneg h2 (le_of_lt hq)

/-- Rounding a number between two integer multiples of the spacing stays
between them. -/
theorem roundQ_between (x : ℚ) (lo hi : ℤ)
    (hlo : (lo : ℚ) * 2 ^ gridExp x ≤ x) (hhi : x ≤ (hi : ℚ) * 2 ^ gridExp x) :
    (lo : ℚ) * 2 ^ gridExp x ≤ roundQ x ∧ roundQ x ≤ (hi : ℚ) * 2 ^ gridExp x := by
  unfold roundQ
  have hq := two_zpow_pos (gridExp x)
  have h1 : (lo : ℚ) ≤ x / 2 ^ gridExp x := by rwa [le_div_iff₀ hq]
  have h2 : x / 2 ^ gridExp x ≤ (hi : ℚ) := by rwa [div_le_iff₀ hq]
  have h3 : lo ≤ roundHalfEven (x / 2 ^ gridExp x) := by
    have := roundHalfEven_mono h1
    rwa [roundHalfEven_intCast] at this
  have h4 : roundHalfEven (x / 2 ^ gridExp x) ≤ hi := by
    have := roundHalfEven_mono h2
    rwa [roundHalfEven_intCast] at this
  constructor
  · exact mul_le_mul_of_nonneg_right (by exact_mod_cast h3) (le_of_lt hq)
  · exact mul_le_mul_of_nonneg_right (by exact_mod_cast h4) (le_of_lt hq)

theorem two_zpow_add_nat (g : ℤ) (n : ℕ) :
    (2 : ℚ) ^ (g + n) = ((2 ^ n : ℤ) : ℚ) * (2 : ℚ) ^ g := by
  rw [zpow_add₀ (by norm_num : (2 : ℚ) ≠ 0), zpow_natCast]
  push_cast
  ring

theorem two_zpow_add_52 (g : ℤ) :
    (2 : ℚ) ^ (g + 52) = ((4503599627370496 : ℤ) : ℚ) * (2 : ℚ) ^ g := by
  have := two_zpow_add_nat g 52
  norm_num at this ⊢
  exact this

theorem two_zpow_add_53 (g : ℤ) :
    (2 : ℚ) ^ (g + 53) = ((9007199254740992 : ℤ) : ℚ) * (2 : ℚ) ^ g := by
  have := two_zpow_add_nat g 53
  norm_num at this ⊢
  exact this

/-- A positive number rounds to at most `2 ^ 53` spacings, and above the
subnormal range to at least `2 ^ 52` spacings. -/
theorem roundQ_pos_bounds {x : ℚ} (hx : 0 < x) :
    roundQ x ≤ (2 : ℚ) ^ (gridExp x + 53)
    ∧ (-1074 < gridExp x → (2 : ℚ) ^ (gridExp x + 52) ≤ roundQ x) := by
  have hxne : x ≠ 0 := ne_of_gt hx
  have h2 := abs_lt_grid x hxne
  rw [abs_of_pos hx] at h2
  have hlo0 : ((0 : ℤ) : ℚ) * 2 ^ gridExp x ≤ x := by simp; exact le_of_lt hx
  have hhi : x ≤ ((9007199254740992 : ℤ) : ℚ) * 2 ^ gridExp x := by
    rw [← two_zpow_add_53]; exact le_of_lt h2
  constructor
  · rw [two_zpow_add_53]
    exact (roundQ_between x _ _ hlo0 hhi).2
  · intro hg
    have h1 := grid_le_abs x hxne hg
    rw [abs_of_pos hx] at h1
    have hlo : ((4503599627370496 : ℤ) : ℚ) * 2 ^ gridExp x ≤ x := by
      rw [← two_zpow_add_52]; exact h1
    rw [two_zpow_add_52]
    exact (roundQ_between x _ _ hlo hhi).1

/-- A negative number rounds to at least `-2 ^ 53` spacings, and above the
subnormal range to at most `-2 ^ 52` spacings. -/
theorem roundQ_neg_bounds {x : ℚ} (hx : x < 0) :
    -(2 : ℚ) ^ (gridExp x + 53) ≤ roundQ x
    ∧ (-1074 < gridExp x → roundQ x ≤ -(2 : ℚ) ^ (gridExp x + 52)) := by
  have hxne : x ≠ 0 := ne_of_lt hx
  have h2 := abs_lt_grid x hxne
  rw [abs_of_neg hx] at h2
  have hhi0 : x ≤ ((0 : ℤ) : ℚ) * 2 ^ gridExp x := by simp; exact le_of_lt hx
  have hlo : ((-9007199254740992 : ℤ) : ℚ) * 2 ^ gridExp x ≤ x := by
    have e := two_zpow_add_53 (gridExp x)
    push_cast at e ⊢
    linarith
  constructor
  · have e := two_zpow_add_53 (gridExp x)
    have r := (roundQ_between x _ _ hlo hhi0).1
    push_cast at e r
    linarith
  · intro hg
    have h1 := grid_le_abs x hxne hg
    rw [abs_of_neg hx] at h1
    have e := two_zpow_add_52 (gridExp x)
    have hhi : x ≤ ((-4503599627370496 : ℤ) : ℚ) * 2 ^ gridExp x := by
      push_cast at e ⊢
      linarith
    have r := (roundQ_between x _ _ hlo hhi).2
    push_cast at e r
    linarith

/-- With the same spacing, rounding keeps the order. -/
theorem roundQ_mono_of_gridExp_eq {x y : ℚ} (h : x ≤ y) (hg : gridExp x = gridExp y) :
    roundQ x ≤ roundQ y := by
  unfold roundQ
  rw [hg]
  have hq := two_zpow_pos (gridExp y)
  have hdiv : x / 2 ^ gridExp y ≤ y / 2 ^ gridExp y :=
    div_le_div_of_nonneg_right h (le_of_lt hq)
  have := roundHalfEven_mono hdiv
  exact mul_le_mul_of_nonneg_right (by exact_mod_cast this) (le_of_lt hq)

/-- Binary64 rounding is monotone. -/
theorem roundQ_mono {x y : ℚ} (h : x ≤ y) : roundQ x ≤ roundQ y := by
  rcases le_or_lt x 0 with hx0 | hx0
  · rcases le_or_lt 0 y with hy0 | hy0
    · exact le_trans (roundQ_nonpos hx0) (roundQ_nonneg hy0)
    · have hxneg : x < 0 := lt_of_le_of_lt h hy0
      have habs : |y| ≤ |x| := by
        rw [abs_of_neg hy0, abs_of_neg hxneg]; linarith
      have hg := gridExp_mono (ne_of_lt hy0) (ne_of_lt hxneg) habs
      rcases lt_or_eq_of_le hg with hlt | heq
      · have hgx : -1074 < gridExp x := lt_of_le_of_lt (gridExp_ge y) hlt
        have rx := (roundQ_neg_bounds hxneg).2 hgx
        have ry := (roundQ_neg_bounds hy0).1
        have hpow : (2 : ℚ) ^ (gridExp y + 53) ≤ (2 : ℚ) ^ (gridExp x + 52) :=
          two_zpow_le (by omega)
        linarith
      · exact roundQ_mono_of_gridExp_eq h heq.symm
  · have hy0 : 0 < y := lt_of_lt_of_le hx0 h
    have habs : |x| ≤ |y| := by
      rw [abs_of_pos hx0, abs_of_pos hy0]; exact h
    have hg := gridExp_mono (ne_of_gt hx0) (ne_of_gt hy0) habs
    rcases lt_or_eq_of_le hg with hlt | heq
    · have hgy : -1074 < gridExp y := lt_of_le_of_lt (gridExp_ge x) hlt
      have rx := (roundQ_pos_bounds hx0).1
      have ry := (roundQ_pos_bounds hy0).2 hgy
      have hpow : (2 : ℚ) ^ (gridExp x + 53) ≤ (2 : ℚ) ^ (gridExp y + 52) :=
        two_zpow_le (by omega)
      linarith
    · exact roundQ_mono_of_gridExp_eq h heq

/-- A number with a significand below `2 ^ 53` in magnitude and an exponent of
at least -1074 is a binary64 number: rounding leaves it as it is. -/
theorem roundQ_of_grid (M E : ℤ) (hM : |M| < 2 ^ 53) (hE : -1074 ≤ E) :
    roundQ ((M : ℚ) * 2 ^ E) = (M : ℚ) * 2 ^ E := by
  rcases eq_or_ne M 0 with h0 | h0
  · rw [h0]; simp [roundQ_zero]
  · obtain ⟨x, hxdef⟩ : ∃ x : ℚ, x = (M : ℚ) * 2 ^ E := ⟨_, rfl⟩
    rw [← hxdef]
    have hpE := two_zpow_pos E
    have hxne : x ≠ 0 := by
      rw [hxdef]
      exact mul_ne_zero (by exact_mod_cast h0) (ne_of_gt hpE)
    have hg : gridExp x ≤ E := by
      rcases lt_or_le (-1074) (gridExp x) with hlt | hle
      · have h1 := grid_le_abs x hxne hlt
        have h2 : |x| < (2 : ℚ) ^ (E + 53) := by
          rw [hxdef, abs_mul, abs_of_pos hpE, two_zpow_add_53]
          have hM' : |(M : ℚ)| < ((9007199254740992 : ℤ) : ℚ) := by
            have : ((|M| : ℤ) : ℚ) < ((2 ^ 53 : ℤ) : ℚ) := by exact_mod_cast hM
            norm_num at this ⊢
            exact this
          exact mul_lt_mul_of_pos_right hM' hpE
        have := two_zpow_lt_imp (lt_of_le_of_lt h1 h2)
        omega
      · omega
    obtain ⟨n, hn⟩ : ∃ n : ℕ, gridExp x + n = E := ⟨(E - gridExp x).toNat, by omega⟩
    have hq := two_zpow_pos (gridExp x)
    have hpow : (2 : ℚ) ^ E = ((2 ^ n : ℤ) : ℚ) * (2 : ℚ) ^ gridExp x := by
      rw [← hn]; exact two_zpow_add_nat (gridExp x) n
    have hdiv : x / 2 ^ gridExp x = ((M * 2 ^ n : ℤ) : ℚ) := by
      rw [div_eq_iff (ne_of_gt hq)]
      calc x = (M : ℚ) * 2 ^ E := hxdef
        _ = (M : ℚ) * (((2 ^ n : ℤ) : ℚ) * (2 : ℚ) ^ gridExp x) := by rw [hpow]
        _ = ((M * 2 ^ n : ℤ) : ℚ) * 2 ^ gridExp x := by push_cast; ring
    unfold roundQ
    rw [hdiv, roundHalfEven_intCast, ← hdiv]
    field_simp

/-- Integers of magnitude at most `2 ^ 53` are binary64 numbers. -/
theorem roundQ_intCast (k : ℤ) (hk : |k| ≤ 2 ^ 53) : roundQ (k : ℚ) = (k : ℚ) := by
  rcases lt_or_eq_of_le hk with hlt | heq
  · have := roundQ_of_grid k 0 hlt (by norm_num)
    simpa using this
  · rcases abs_eq (by norm_num : (0 : ℤ) ≤ 2 ^ 53) |>.mp heq with h | h
    · have := roundQ_of_grid 1 53 (by norm_num) (by norm_num)
      rw [h]
      norm_num at this ⊢
      exact this
    · have := roundQ_of_grid (-1) 53 (by norm_num) (by norm_num)
      rw [h]
      norm_num at this ⊢
      exact this

theorem overflowBound_pos : (0 : ℚ) < overflowBound := by
  unfold overflowBound
  positivity

theorem two_pow_63_lt_overflowBound : (2 : ℚ) ^ 63 < overflowBound := by
  unfold overflowBound
  exact pow_lt_pow_right₀ (by norm_num) (by norm_num)

theorem F64.norm_isNumber (y : ℚ) : (F64.norm y).IsNumber := by
  unfold F64.norm
  split_ifs with h1 h2
  · trivial
  · trivial
  · exact ⟨not_le.mp h2, not_le.mp h1⟩

theorem F64.rank_norm_mono {x y : ℚ} (h : x ≤ y) :
    (F64.norm x).rank ≤ (F64.norm y).rank := by
  have hpos := overflowBound_pos
  unfold F64.norm
  split_ifs <;> simp only [F64.rank] <;> linarith

theorem F64.ofRat_isNumber (x : ℚ) : (F64.ofRat x).IsNumber :=
  F64.norm_isNumber _

/-- Rounding keeps the order. -/
theorem F64.rank_ofRat_mono {x y : ℚ} (h : x ≤ y) :
    (F64.ofRat x).rank ≤ (F64.ofRat y).rank :=
  F64.rank_norm_mono (roundQ_mono h)

theorem F64.rank_bounds {a : F64} (ha : a.IsNumber) :
    -overflowBound ≤ a.rank ∧ a.rank ≤ overflowBound := by
  have hpos := overflowBound_pos
  cases a with
  | fin v => exact ⟨le_of_lt ha.1, le_of_lt ha.2⟩
  | pinf => simp only [F64.rank]; constructor <;> linarith
  | ninf => simp only [F64.rank]; constructor <;> linarith
  | nan => exact absurd ha (by simp [F64.IsNumber])

/-- On numbers the comparison `>` is the order of the number line. -/
theorem F64.gt_iff_rank {a b : F64} (ha : a.IsNumber) (hb : b.IsNumber) :
    F64.gt a b = true ↔ b.rank < a.rank := by
  have hpos := overflowBound_pos
  cases a <;> cases b <;>
    simp only [F64.gt, F64.rank, F64.IsNumber, decide_eq_true_eq] at ha hb ⊢ <;>
    first
    | exact Iff.rfl
    | (constructor <;> intro h <;> first | trivial | linarith [ha.1, ha.2] | linarith [hb.1, hb.2] | linarith)

theorem F64.gt_ne_nan {a b : F64} (h : F64.gt a b = true) : a ≠ F64.nan ∧ b ≠ F64.nan := by
  cases a <;> cases b <;> simp [F64.gt] at h ⊢

/-- A weight `w > 0` is a positive finite value or the positive infinity. -/
theorem F64.pos_cases {w : F64} (hw : F64.gt w (F64.fin 0) = true) :
    (∃ v : ℚ, w = F64.fin v ∧ 0 < v) ∨ w = F64.pinf := by
  cases w with
  | fin v => left; exact ⟨v, rfl, by simpa [F64.gt] using hw⟩
  | pinf => right; rfl
  | ninf => simp [F64.gt] at hw
  | nan => simp [F64.gt] at hw

theorem F64.pos_not_isZero {w : F64} (hw : F64.gt w (F64.fin 0) = true) :
    w.isZero = false := by
  rcases F64.pos_cases hw with ⟨v, rfl, hv⟩ | rfl
  · simp [F64.isZero, ne_of_gt hv]
  · rfl

/-- The quotient of a rounded value by a positive weight is a number unless it
is NaN. -/
theorem F64.div_ofRat_isNumber {w : F64} (hw : F64.gt w (F64.fin 0) = true) (x : ℚ)
    (hx : F64.div (F64.ofRat x) w ≠ F64.nan) : (F64.div (F64.ofRat x) w).IsNumber := by
  have hpos := overflowBound_pos
  rcases F64.pos_cases hw with ⟨v, rfl, hv⟩ | rfl
  · have hv0 : v ≠ 0 := ne_of_gt hv
    have hx' := F64.ofRat_isNumber x
    cases hc : F64.ofRat x with
    | fin a => simp only [F64.div, hv0, if_false]; exact F64.ofRat_isNumber _
    | pinf => simp [F64.div, le_of_lt hv, F64.IsNumber]
    | ninf => simp [F64.div, le_of_lt hv, F64.IsNumber]
    | nan => rw [hc] at hx'; exact absurd hx' (by simp [F64.IsNumber])
  · cases hc : F64.ofRat x with
    | fin a => simp only [F64.div, F64.IsNumber]; constructor <;> linarith
    | pinf => rw [hc] at hx; simp [F64.div] at hx
    | ninf => rw [hc] at hx; simp [F64.div] at hx
    | nan => rw [hc] at hx; simp [F64.div] at hx

/-- Dividing rounded values by the same positive weight keeps their order. -/
theorem F64.rank_div_ofRat_mono {w : F64} (hw : F64.gt w (F64.fin 0) = true) {x y : ℚ}
    (hxy : x ≤ y) (hx : F64.div (F64.ofRat x) w ≠ F64.nan)
    (hy : F64.div (F64.ofRat y) w ≠ F64.nan) :
    (F64.div (F64.ofRat x) w).rank ≤ (F64.div (F64.ofRat y) w).rank := by
  have hpos := overflowBound_pos
  have hmono := F64.rank_ofRat_mono hxy
  have hnx := F64.ofRat_isNumber x
  have hny := F64.ofRat_isNumber y
  rcases F64.pos_cases hw with ⟨v, rfl, hv⟩ | rfl
  · have hv0 : v ≠ 0 := ne_of_gt hv
    cases hcx : F64.ofRat x with
    | nan => rw [hcx] at hnx; exact absurd hnx (by simp [F64.IsNumber])
    | ninf =>
      have hb := (F64.rank_bounds (F64.div_ofRat_isNumber hw y hy)).1
      simp only [F64.div, le_of_lt hv, if_true, F64.rank]
      exact hb
    | pinf =>
      cases hcy : F64.ofRat y with
      | nan => rw [hcy] at hny; exact absurd hny (by simp [F64.IsNumber])
      | pinf => simp [F64.div, le_of_lt hv]
      | ninf => rw [hcx, hcy] at hmono; simp only [F64.rank] at hmono; linarith
      | fin b =>
        rw [hcx, hcy] at hmono; rw [hcy] at hny
        simp only [F64.rank, F64.IsNumber] at hmono hny; linarith [hny.2]
    | fin a =>
      cases hcy : F64.ofRat y with
      | nan => rw [hcy] at hny; exact absurd hny (by simp [F64.IsNumber])
      | pinf =>
        have hb := (F64.rank_bounds (F64.ofRat_isNumber (a / v))).2
        simp only [F64.div, hv0, if_false, le_of_lt hv, if_true, F64.rank]
        exact hb
      | ninf =>
        rw [hcx, hcy] at hmono; rw [hcx] at hnx
        simp only [F64.rank, F64.IsNumber] at hmono hnx; linarith [hnx.1]
      | fin b =>
        rw [hcx, hcy] at hmono
        simp only [F64.rank] at hmono
        simp only [F64.div, hv0, if_false]
        exact F64.rank_ofRat_mono (div_le_div_of_nonneg_right hmono (le_of_lt hv))
  · cases hcx : F64.ofRat x with
    | nan => rw [hcx] at hx; simp [F64.div] at hx
    | pinf => rw [hcx] at hx; simp [F64.div] at hx
    | ninf => rw [hcx] at hx; simp [F64.div] at hx
    | fin a =>
      cases hcy : F64.ofRat y with
      | nan => rw [hcy] at hy; simp [F64.div] at hy
      | pinf => rw [hcy] at hy; simp [F64.div] at hy
      | ninf => rw [hcy] at hy; simp [F64.div] at hy
      | fin b => simp [F64.div]

/-- The conversion of an integer of magnitude at most `2 ^ 53` is exact. -/
theorem F64.ofInt_exact (k : ℤ) (hk : |k| ≤ 2 ^ 53) : F64.ofInt k = F64.fin (k : ℚ) := by
  have habs : |(k : ℚ)| ≤ 2 ^ 53 := by
    have : ((|k| : ℤ) : ℚ) ≤ ((2 ^ 53 : ℤ) : ℚ) := by exact_mod_cast hk
    simpa using this
  have hlt : (2 : ℚ) ^ 53 < overflowBound :=
    lt_trans (by norm_num) two_pow_63_lt_overflowBound
  have h1 := abs_le.mp habs
  unfold F64.ofInt F64.ofRat F64.norm
  rw [roundQ_intCast k hk]
  have hn1 : ¬ (overflowBound ≤ (k : ℚ)) := by linarith [h1.2]
  have hn2 : ¬ ((k : ℚ) ≤ -overflowBound) := by linarith [h1.1]
  simp [hn1, hn2]

/-- The conversion of a 64-bit integer is the finite value it rounds to. -/
theorem F64.ofInt_int64 (k : ℤ) (hk : |k| ≤ 2 ^ 63) : F64.ofInt k = F64.fin (roundQ (k : ℚ)) := by
  have habs : |(k : ℚ)| ≤ 2 ^ 63 := by
    have : ((|k| : ℤ) : ℚ) ≤ ((2 ^ 63 : ℤ) : ℚ) := by exact_mod_cast hk
    simpa using this
  have h1 := abs_le.mp habs
  have e63 : roundQ ((2 : ℚ) ^ 63) = (2 : ℚ) ^ 63 := by
    have := roundQ_of_grid 1 63 (by norm_num) (by norm_num)
    norm_num at this ⊢
    exact this
  have e63' : roundQ (-(2 : ℚ) ^ 63) = -(2 : ℚ) ^ 63 := by
    have := roundQ_of_grid (-1) 63 (by norm_num) (by norm_num)
    norm_num at this ⊢
    exact this
  have hup : roundQ (k : ℚ) ≤ 2 ^ 63 := by
    have := roundQ_mono h1.2
    rwa [e63] at this
  have hlo : -(2 : ℚ) ^ 63 ≤ roundQ (k : ℚ) := by
    have := roundQ_mono h1.1
    rwa [e63'] at this
  have hlt := two_pow_63_lt_overflowBound
  unfold F64.ofInt F64.ofRat F64.norm
  have hn1 : ¬ (overflowBound ≤ roundQ (k : ℚ)) := by linarith
  have hn2 : ¬ (roundQ (k : ℚ) ≤ -overflowBound) := by linarith
  simp [hn1, hn2]

/-- With 64-bit sizes, positive weights and a finite move size, `shouldBalanceF64`
compares the two rounded quotients. -/
theorem shouldBalanceF64_fin (s t : ℤ) (sw tw : F64) (mq : ℚ)
    (hs : |s| ≤ 2 ^ 63) (ht : |t| ≤ 2 ^ 63)
    (hsw : F64.gt sw (F64.fin 0) = true) (htw : F64.gt tw (F64.fin 0) = true) :
    shouldBalanceF64 s sw t tw (F64.fin mq)
      = F64.gt (F64.div (F64.ofRat (roundQ (s : ℚ) - mq)) sw)
          (F64.div (F64.ofRat (roundQ (t : ℚ) + mq)) tw) := by
  unfold shouldBalanceF64
  rw [F64.pos_not_isZero hsw, F64.pos_not_isZero htw, F64.ofInt_int64 s hs,
    F64.ofInt_int64 t ht]
  simp only [F64.sub, F64.neg, F64.add, Bool.false_eq_true, if_false, sub_eq_add_neg]

/-- With a move size of positive infinity nothing is approved. -/
theorem shouldBalanceF64_pinf (s t : ℤ) (sw tw : F64)
    (hs : |s| ≤ 2 ^ 63)
    (hsw : F64.gt sw (F64.fin 0) = true) (htw : F64.gt tw (F64.fin 0) = true) :
    shouldBalanceF64 s sw t tw F64.pinf = false := by
  unfold shouldBalanceF64
  rw [F64.pos_not_isZero hsw, F64.pos_not_isZero htw, F64.ofInt_int64 s hs]
  rcases F64.pos_cases hsw with ⟨v, rfl, hv⟩ | rfl
  · simp [F64.sub, F64.neg, F64.add, F64.div, le_of_lt hv, F64.gt]
  · simp [F64.sub, F64.neg, F64.add, F64.div, F64.gt]

/-- An approval means that the rounded source quotient lies above the rounded
target quotient, both being numbers. -/
theorem gt_div_ofRat {w1 w2 : F64} (hw1 : F64.gt w1 (F64.fin 0) = true)
    (hw2 : F64.gt w2 (F64.fin 0) = true) {x y : ℚ}
    (h : F64.gt (F64.div (F64.ofRat x) w1) (F64.div (F64.ofRat y) w2) = true) :
    F64.div (F64.ofRat x) w1 ≠ F64.nan ∧ F64.div (F64.ofRat y) w2 ≠ F64.nan
    ∧ (F64.div (F64.ofRat y) w2).rank < (F64.div (F64.ofRat x) w1).rank := by
  have hne := F64.gt_ne_nan h
  refine ⟨hne.1, hne.2, ?_⟩
  exact (F64.gt_iff_rank (F64.div_ofRat_isNumber hw1 x hne.1)
    (F64.div_ofRat_isNumber hw2 y hne.2)).mp h

theorem F64.ge_zero_cases {m : F64} (hm : F64.ge m (F64.fin 0) = true) :
    (∃ mq : ℚ, m = F64.fin mq ∧ 0 ≤ mq) ∨ m = F64.pinf := by
  cases m with
  | fin v => left; exact ⟨v, rfl, by simpa [F64.ge] using hm⟩
  | pinf => right; rfl
  | ninf => simp [F64.ge] at hm
  | nan => simp [F64.ge] at hm

theorem shouldBalanceF64_only_if (s t : ℤ) (sw tw : F64) (mq : ℚ)
    (hs : |s| ≤ 2 ^ 63) (ht : |t| ≤ 2 ^ 63)
    (hsw : F64.gt sw (F64.fin 0) = true) (htw : F64.gt tw (F64.fin 0) = true)
    (heq : sw = tw)
    (h : shouldBalanceF64 s sw t tw (F64.fin mq) = true) :
    roundQ (s : ℚ) - roundQ (t : ℚ) > 2 * mq := by
  subst heq
  rw [shouldBalanceF64_fin s t sw sw mq hs ht hsw hsw] at h
  obtain ⟨h1, h2, h3⟩ := gt_div_ofRat hsw hsw h
  by_contra hn
  have hle : roundQ (s : ℚ) - mq ≤ roundQ (t : ℚ) + mq := by
    have := not_lt.mp hn
    linarith
  have := F64.rank_div_ofRat_mono hsw hle h1 h2
  linarith

theorem sqrtBits_spec (n : ℕ) (i r : ℕ) (h1 : r * r ≤ n)
    (h2 : n < (r + 2 ^ i) * (r + 2 ^ i)) :
    sqrtBits n i r * sqrtBits n i r ≤ n
    ∧ n < (sqrtBits n i r + 1) * (sqrtBits n i r + 1) := by
  induction i generalizing r with
  | zero =>
    simp only [sqrtBits]
    exact ⟨h1, by simpa using h2⟩
  | succ i ih =>
    simp only [sqrtBits]
    split_ifs with h
    · apply ih _ h
      have : r + 2 ^ i + 2 ^ i = r + 2 ^ (i + 1) := by rw [pow_succ]; ring
      rw [this]
      exact h2
    · exact ih r h1 (not_le.mp h)

/-- The function `isqrt` is the integer square root. -/
theorem isqrt_eq_sqrt (n : ℕ) : isqrt n = Nat.sqrt n := by
  have hspec : isqrt n * isqrt n ≤ n ∧ n < (isqrt n + 1) * (isqrt n + 1) := by
    unfold isqrt
    apply sqrtBits_spec n _ 0 (by simp)
    simp only [zero_add]
    rcases Nat.eq_zero_or_pos n with h0 | hpos
    · subst h0; positivity
    · have h := (natLog2_spec n hpos).2
      have hle : natLog2 n + 1 ≤ (natLog2 n / 2 + 1) + (natLog2 n / 2 + 1) := by omega
      calc n < 2 ^ (natLog2 n + 1) := h
        _ ≤ 2 ^ ((natLog2 n / 2 + 1) + (natLog2 n / 2 + 1)) :=
            Nat.pow_le_pow_right (by norm_num) hle
        _ = 2 ^ (natLog2 n / 2 + 1) * 2 ^ (natLog2 n / 2 + 1) := by rw [pow_add]
  exact Nat.eq_sqrt.mpr hspec

theorem roundQ_one : roundQ 1 = 1 := by
  have := roundQ_intCast 1 (by norm_num)
  simpa using this

theorem F64.ofRat_zero : F64.ofRat 0 = F64.fin 0 := by
  have := F64.ofInt_exact 0 (by norm_num)
  simpa [F64.ofInt] using this

/-- The conversion of a natural number of at most `2 ^ 53` is exact. -/
theorem F64.ofNat_exact (n : ℕ) (hn : n ≤ 2 ^ 53) : F64.ofNat n = F64.fin (n : ℚ) := by
  have h : |(n : ℤ)| ≤ 2 ^ 53 := by
    rw [abs_of_nonneg (Int.natCast_nonneg n)]
    exact_mod_cast hn
  have := F64.ofInt_exact (n : ℤ) h
  simpa [F64.ofInt, F64.ofNat] using this

/-- Zero divided by the length of a non-empty sample is zero. -/
theorem F64.div_zero_ofNat (n : ℕ) (hn : 0 < n) :
    F64.div (F64.fin 0) (F64.ofNat n) = F64.fin 0 := by
  have h1 : (1 : ℚ) ≤ roundQ (n : ℚ) := by
    have hle : (1 : ℚ) ≤ (n : ℚ) := by exact_mod_cast hn
    have := roundQ_mono hle
    rwa [roundQ_one] at this
  unfold F64.ofNat F64.ofRat F64.norm
  split_ifs with h2 h3
  · rfl
  · exfalso
    have := overflowBound_pos
    linarith
  · have hne : roundQ (n : ℚ) ≠ 0 := by linarith
    simp [F64.div, hne, F64.ofRat_zero]

/-- Adding equal counts whose total is at most `2 ^ 53` involves no rounding. -/
theorem foldl_add_const (c : ℕ) (xs : List F64) (j : ℕ)
    (hall : ∀ x ∈ xs, x = F64.fin (c : ℚ)) (hsmall : (j + xs.length) * c ≤ 2 ^ 53) :
    xs.foldl F64.add (F64.fin ((j * c : ℕ) : ℚ))
      = F64.fin (((j + xs.length) * c : ℕ) : ℚ) := by
  induction xs generalizing j with
  | nil => simp
  | cons x rest ih =>
    have hx : x = F64.fin (c : ℚ) := hall x (List.mem_cons_self _ _)
    have hlen : (j + 1 + rest.length) * c ≤ 2 ^ 53 := by
      have : j + (x :: rest).length = j + 1 + rest.length := by
        simp only [List.length_cons]; omega
      rwa [this] at hsmall
    have hstep : F64.add (F64.fin ((j * c : ℕ) : ℚ)) x = F64.fin (((j + 1) * c : ℕ) : ℚ) := by
      rw [hx]
      have hle : (j + 1) * c ≤ 2 ^ 53 := by
        refine le_trans (Nat.mul_le_mul_right c ?_) hlen
        omega
      have := F64.ofNat_exact ((j + 1) * c) hle
      simp only [F64.add]
      rw [show ((j * c : ℕ) : ℚ) + (c : ℚ) = (((j + 1) * c : ℕ) : ℚ) by push_cast; ring]
      exact this
    rw [List.foldl_cons, hstep, ih (j + 1) (fun y hy => hall y (List.mem_cons_of_mem _ hy)) hlen]
    congr 2
    simp only [List.length_cons]
    ring

/-- The mean of equal counts whose total is at most `2 ^ 53` is the count. -/
theorem MeanF64_const (c : ℕ) (xs : List F64) (hne : xs ≠ [])
    (hall : ∀ x ∈ xs, x = F64.fin (c : ℚ)) (hsmall : xs.length * c ≤ 2 ^ 53) :
    MeanF64 xs = F64.fin (c : ℚ) := by
  have hlen : 0 < xs.length := List.length_pos.mpr hne
  have hsum : SumF64 xs = F64.fin ((xs.length * c : ℕ) : ℚ) := by
    have := foldl_add_const c xs 0 hall (by simpa using hsmall)
    simpa [SumF64] using this
  unfold MeanF64
  rw [hsum]
  rcases Nat.eq_zero_or_pos c with hc | hc
  · subst hc
    simpa using F64.div_zero_ofNat xs.length hlen
  · have hn : xs.length ≤ 2 ^ 53 :=
      le_trans (Nat.le_mul_of_pos_right _ hc) hsmall
    have hc53 : c ≤ 2 ^ 53 := le_trans (Nat.le_mul_of_pos_left _ hlen) hsmall
    rw [F64.ofNat_exact _ hn]
    have hne0 : (xs.length : ℚ) ≠ 0 := by exact_mod_cast (ne_of_gt hlen)
    simp only [F64.div, hne0, if_false]
    have hq : ((xs.length * c : ℕ) : ℚ) / (xs.length : ℚ) = (c : ℚ) := by
      push_cast
      field_simp
    rw [hq]
    exact F64.ofNat_exact c hc53

/-- The squared distances of equal counts to their mean add up to zero. -/
theorem foldl_variance_const (v : ℚ) (xs : List F64) (hall : ∀ x ∈ xs, x = F64.fin v) :
    xs.foldl
        (fun variance n =>
          F64.add variance (F64.mul (F64.sub n (F64.fin v)) (F64.sub n (F64.fin v))))
        (F64.fin 0)
      = F64.fin 0 := by
  induction xs with
  | nil => rfl
  | cons x rest ih =>
    have hx : x = F64.fin v := hall x (List.mem_cons_self _ _)
    rw [List.foldl_cons, hx]
    have hstep : F64.add (F64.fin 0)
        (F64.mul (F64.sub (F64.fin v) (F64.fin v)) (F64.sub (F64.fin v) (F64.fin v)))
        = F64.fin 0 := by
      simp [F64.sub, F64.neg, F64.add, F64.mul, F64.ofRat_zero]
    rw [hstep]
    exact ih (fun y hy => hall y (List.mem_cons_of_mem _ hy))

theorem F64.sqrt_zero : F64.sqrt (F64.fin 0) = F64.fin 0 := by
  decide!

/-- The deviation of a non-empty sample of equal counts whose total is at most
`2 ^ 53` is computed as zero. -/
theorem StandardDeviationF64_const (c : ℕ) (xs : List F64) (hne : xs ≠ [])
    (hall : ∀ x ∈ xs, x = F64.fin (c : ℚ)) (hsmall : xs.length * c ≤ 2 ^ 53) :
    StandardDeviationF64 xs = (F64.fin 0, none) := by
  have hlen : 0 < xs.length := List.length_pos.mpr hne
  have hlen0 : xs.length ≠ 0 := ne_of_gt hlen
  unfold StandardDeviationF64
  rw [if_neg hlen0]
  have hvar : PopulationVarianceF64 xs = F64.fin 0 := by
    unfold PopulationVarianceF64
    simp only [MeanF64_const c xs hne hall hsmall]
    rw [foldl_variance_const (c : ℚ) xs hall]
    exact F64.div_zero_ofNat xs.length hlen
  rw [hvar, F64.sqrt_zero]


/-- The loop of `adjustBalanceLimit` appends, to what it has collected, the
values of the up stores in order, whatever the value taken from a store. -/
theorem collect_eq {α : Type} (f : StoreInfo → α) (stores : List StoreInfo) (acc : List α) :
    stores.foldl (fun counts s => if s.IsUp then counts ++ [f s] else counts) acc
      = acc ++ (stores.filter (fun s => s.IsUp)).map f := by
  induction stores generalizing acc with
  | nil => simp
  | cons s rest ih =>
    rw [List.foldl_cons, ih]
    cases hs : s.IsUp <;> simp [hs]

/-- The `float64` limit is computed from the sample `upCountsF64`. -/
theorem adjustBalanceLimitF64_eq_upCountsF64 {σ : Type} (cluster : Cluster σ)
    (kind : ResourceKind) :
    adjustBalanceLimitF64 cluster kind
      = maxUint64 1 (StandardDeviationF64 (upCountsF64 cluster kind)).1.toUint64 := by
  unfold adjustBalanceLimitF64 upCountsF64
  simp only [collect_eq, List.nil_append]

/-- In `float64` too, `shouldBalanceF64` returns false whenever the target weight
is zero. -/
theorem shouldBalanceF64_targetWeight_zero (s t : ℤ) (sw tw m : F64)
    (htw : tw.isZero = true) : shouldBalanceF64 s sw t tw m = false := by
  simp [shouldBalanceF64, htw]

/-- In `float64` too, `shouldBalanceF64` returns true whenever the source weight
is zero and the target weight is positive. -/
theorem shouldBalanceF64_sourceWeight_zero (s t : ℤ) (sw tw m : F64)
    (hsw : sw.isZero = true) (htw : F64.gt tw (F64.fin 0) = true) :
    shouldBalanceF64 s sw t tw m = true := by
  simp [shouldBalanceF64, hsw, F64.pos_not_isZero htw]

/-- In `float64` too, the limit is at least 1. -/
theorem adjustBalanceLimitF64_ge_one {σ : Type} (cluster : Cluster σ) (kind : ResourceKind) :
    1 ≤ adjustBalanceLimitF64 cluster kind := by
  rw [adjustBalanceLimitF64_eq_upCountsF64, maxUint64_eq_max]
  exact le_max_left _ _

/-! ### Balance feasibility -/

/-- C1: for non-zero weights `shouldBalance` is true exactly when the source
score after the move, `(sourceSize - moveSize) / sourceWeight`, is strictly
greater than the target score after the move,
`(targetSize + moveSize) / targetWeight`; moreover
`shouldBalance 100 1 0 1 10 = true` and `shouldBalance 55 1 50 1 10 = false`. -/
theorem shouldBalance_iff_score_gt (sourceSize targetSize : Int)
    (sourceWeight targetWeight moveSize : ℚ)
    (hs : sourceWeight ≠ 0) (ht : targetWeight ≠ 0) :
    (shouldBalance sourceSize sourceWeight targetSize targetWeight moveSize = true
      ↔ ((sourceSize : ℚ) - moveSize) / sourceWeight
          > ((targetSize : ℚ) + moveSize) / targetWeight)
    ∧ shouldBalance 100 1 0 1 10 = true
    ∧ shouldBalance 55 1 50 1 10 = false := by
  refine ⟨?_, ?_, ?_⟩
  · simp [shouldBalance, hs, ht]
  · simp [shouldBalance]; norm_num
  · simp [shouldBalance]; norm_num

/-- Witness of C1 at weights 2 and 3: the hypotheses hold and the equivalence
is the one of the theorem. -/
theorem shouldBalance_iff_score_gt_witness :
    (2 : ℚ) ≠ 0 ∧ (3 : ℚ) ≠ 0
    ∧ ((shouldBalance 100 2 0 3 10 = true
        ↔ (((100 : Int) : ℚ) - 10) / 2 > (((0 : Int) : ℚ) + 10) / 3)
      ∧ shouldBalance 100 1 0 1 10 = true
      ∧ shouldBalance 55 1 50 1 10 = false) :=
  ⟨by norm_num, by norm_num,
    shouldBalance_iff_score_gt 100 0 2 3 10 (by norm_num) (by norm_num)⟩

/-- C2: `shouldBalance` returns false whenever the target weight is zero,
whatever the sizes, the move size and the source weight (zero included). -/
theorem shouldBalance_targetWeight_zero (sourceSize targetSize : Int)
    (sourceWeight moveSize : ℚ) :
    shouldBalance sourceSize sourceWeight targetSize 0 moveSize = false := by
  simp [shouldBalance]

/-- C3: `shouldBalance` returns true whenever the source weight is zero and the
target weight is positive, whatever the sizes and the move size. -/
theorem shouldBalance_sourceWeight_zero (sourceSize targetSize : Int)
    (targetWeight moveSize : ℚ) (ht : 0 < targetWeight) :
    shouldBalance sourceSize 0 targetSize targetWeight moveSize = true := by
  simp [shouldBalance, ne_of_gt ht]

/-- Witness of C3 at target weight 2, with a source lighter than the target. -/
theorem shouldBalance_sourceWeight_zero_witness :
    (0 : ℚ) < 2 ∧ shouldBalance 5 0 50 2 10 = true :=
  ⟨by norm_num, shouldBalance_sourceWeight_zero 5 50 2 10 (by norm_num)⟩

/-- In exact arithmetic an approved move is not reversed at once: for positive
weights and a move size `m ≥ 0`, if `shouldBalance s sw t tw m` is true and
`s2 = s - m`, `t2 = t + m` are the sizes that result from the move, then with
the roles swapped `shouldBalance t2 tw s2 sw m` is false. -/
theorem shouldBalance_not_reversed (s t s2 t2 : Int) (sw tw m : ℚ)
    (hm : 0 ≤ m) (hsw : 0 < sw) (htw : 0 < tw)
    (hs2 : (s2 : ℚ) = (s : ℚ) - m) (ht2 : (t2 : ℚ) = (t : ℚ) + m)
    (h : shouldBalance s sw t tw m = true) :
    shouldBalance t2 tw s2 sw m = false := by
  rw [shouldBalance_pos_iff s t sw tw m hsw htw] at h
  rw [Bool.eq_false_iff]
  intro hrev
  rw [shouldBalance_pos_iff t2 s2 tw sw m htw hsw] at hrev
  rw [hs2, ht2] at hrev
  have h1 : 0 ≤ m * sw := mul_nonneg hm (le_of_lt hsw)
  have h2 : 0 ≤ m * tw := mul_nonneg hm (le_of_lt htw)
  nlinarith

/-- C4, as the code has it: an approved move is not reversed at once when the
sizes are exact in `float64`. For sizes `s`, `t` of magnitude at most `2 ^ 53`, a
move size `m ≥ 0`, finite or infinite, and weights `sw > 0`, `tw > 0`, if
`shouldBalanceF64 s sw t tw m` is true then, for the sizes `s - k` and `t + k`
left by moving an integer amount `k ≤ m` (`k = m` when `m` is an integer),
also of magnitude at most `2 ^ 53`, `shouldBalanceF64 (t + k) tw (s - k) sw m`
is false. -/
theorem shouldBalanceF64_not_reversed (s t k : ℤ) (sw tw m : F64)
    (hs : |s| ≤ 2 ^ 53) (ht : |t| ≤ 2 ^ 53)
    (hs2 : |s - k| ≤ 2 ^ 53) (ht2 : |t + k| ≤ 2 ^ 53)
    (hm : F64.ge m (F64.fin 0) = true) (hk : F64.ge m (F64.fin (k : ℚ)) = true)
    (hsw : F64.gt sw (F64.fin 0) = true) (htw : F64.gt tw (F64.fin 0) = true)
    (h : shouldBalanceF64 s sw t tw m = true) :
    shouldBalanceF64 (t + k) tw (s - k) sw m = false := by
  have b53 : (2 : ℤ) ^ 53 ≤ 2 ^ 63 := by norm_num
  rcases F64.ge_zero_cases hm with ⟨mq, rfl, hmq⟩ | rfl
  · have hkq : (k : ℚ) ≤ mq := by simpa [F64.ge] using hk
    rw [shouldBalanceF64_fin s t sw tw mq (le_trans hs b53) (le_trans ht b53) hsw htw,
      roundQ_intCast s hs, roundQ_intCast t ht] at h
    rw [Bool.eq_false_iff]
    intro hrev
    rw [shouldBalanceF64_fin (t + k) (s - k) tw sw mq (le_trans ht2 b53) (le_trans hs2 b53)
      htw hsw, roundQ_intCast (t + k) ht2, roundQ_intCast (s - k) hs2] at hrev
    obtain ⟨a1, a2, a3⟩ := gt_div_ofRat hsw htw h
    obtain ⟨r1, r2, r3⟩ := gt_div_ofRat htw hsw hrev
    have e1 : (((t + k : ℤ)) : ℚ) - mq ≤ (t : ℚ) + mq := by push_cast; linarith
    have e2 : (s : ℚ) - mq ≤ (((s - k : ℤ)) : ℚ) + mq := by push_cast; linarith
    have m1 := F64.rank_div_ofRat_mono htw e1 r1 a2
    have m2 := F64.rank_div_ofRat_mono hsw e2 a1 r2
    linarith
  · exact shouldBalanceF64_pinf (t + k) (s - k) tw sw (le_trans ht2 b53) htw hsw

/-- Witness of C4: the move of 10 from a store of size 100 to an empty store,
with weights 1 and 2, is approved and its reversal from sizes 10 and 90 is
rejected. -/
theorem shouldBalanceF64_not_reversed_witness :
    |(100 : ℤ)| ≤ 2 ^ 53 ∧ |(0 : ℤ)| ≤ 2 ^ 53
    ∧ |(100 : ℤ) - 10| ≤ 2 ^ 53 ∧ |(0 : ℤ) + 10| ≤ 2 ^ 53
    ∧ F64.ge (F64.fin 10) (F64.fin 0) = true
    ∧ F64.ge (F64.fin 10) (F64.fin ((10 : ℤ) : ℚ)) = true
    ∧ F64.gt (F64.fin 1) (F64.fin 0) = true
    ∧ F64.gt (F64.fin 2) (F64.fin 0) = true
    ∧ shouldBalanceF64 100 (F64.fin 1) 0 (F64.fin 2) (F64.fin 10) = true
    ∧ shouldBalanceF64 (0 + 10) (F64.fin 2) (100 - 10) (F64.fin 1) (F64.fin 10) = false :=
  ⟨by decide!, by decide!, by decide!, by decide!, by decide!, by decide!, by decide!,
    by decide!, by decide!,
    shouldBalanceF64_not_reversed 100 0 10 (F64.fin 1) (F64.fin 2) (F64.fin 10)
      (by decide!) (by decide!) (by decide!) (by decide!) (by decide!) (by decide!)
      (by decide!) (by decide!) (by decide!)⟩

/-- C4 as stated fails on the `float64` code: with sizes `2 ^ 54 + 6` and
`2 ^ 54 + 5`, weights 1 and move size 1 the move is approved, and on the sizes
after the move with the roles swapped, `(2 ^ 54 + 5) + 1` and
`(2 ^ 54 + 6) - 1`, it is approved again. -/
theorem shouldBalanceF64_reversed_counterexample :
    F64.ge (F64.fin 1) (F64.fin 0) = true
    ∧ F64.gt (F64.fin 1) (F64.fin 0) = true
    ∧ shouldBalanceF64 (2 ^ 54 + 6) (F64.fin 1) (2 ^ 54 + 5) (F64.fin 1) (F64.fin 1) = true
    ∧ shouldBalanceF64 ((2 ^ 54 + 5) + 1) (F64.fin 1) ((2 ^ 54 + 6) - 1) (F64.fin 1)
        (F64.fin 1) = true := by
  refine ⟨by decide!, by decide!, by decide!, by decide!⟩

/-! ### Dynamic balance limit -/

/-- In exact arithmetic `adjustBalanceLimit` is `max 1 ⌊sigma⌋`, where `sigma` is
the population standard deviation (the square root of the population variance)
of the counts of exactly the up stores, `upCounts`; for an empty sample `sigma`
is 0, as the spec sets it. A snapshot `other` with the same up stores, whatever
its down stores, gets the same limit. -/
theorem adjustBalanceLimit_eq_max_one_trunc_sigma {σ τ : Type} (cluster : Cluster σ)
    (other : Cluster τ) (kind : ResourceKind)
    (hup : other.GetStores.filter (fun s => s.IsUp)
      = cluster.GetStores.filter (fun s => s.IsUp)) :
    adjustBalanceLimit cluster kind
        = max 1 ⌊Real.sqrt ((PopulationVariance (upCounts cluster kind) : ℚ) : ℝ)⌋₊
    ∧ adjustBalanceLimit other kind = adjustBalanceLimit cluster kind := by
  constructor
  · rw [adjustBalanceLimit_eq_upCounts, maxUint64_eq_max, Root.toUint64_eq_floor_sqrt]
    unfold StandardDeviation
    split_ifs with h
    · have hnil : upCounts cluster kind = [] := List.length_eq_zero.mp h
      simp [hnil, PopulationVariance]
    · rfl
  · rw [adjustBalanceLimit_eq_upCounts, adjustBalanceLimit_eq_upCounts]
    unfold upCounts
    rw [hup]

/-- C5, as the code has it: `adjustBalanceLimitF64` is `max 1 (uint64 d)`, where
`d` is the deviation that the routine computes in `float64` for the converted
counts of exactly the up stores, `upCountsF64`, in snapshot order; a snapshot
`other` with the same up stores, whatever its down stores, gets the same limit.
With the numbers read as exact reals, `adjustBalanceLimit` is `max 1 ⌊sigma⌋`
for the population standard deviation `sigma` of the counts of exactly the up
stores (0 for an empty sample, as the spec sets it), and again `other` gets the
same limit. -/
theorem adjustBalanceLimitF64_eq_max_one_trunc {σ τ : Type} (cluster : Cluster σ)
    (other : Cluster τ) (kind : ResourceKind)
    (hup : other.GetStores.filter (fun s => s.IsUp)
      = cluster.GetStores.filter (fun s => s.IsUp)) :
    adjustBalanceLimitF64 cluster kind
        = max 1 (StandardDeviationF64 (upCountsF64 cluster kind)).1.toUint64
    ∧ adjustBalanceLimitF64 other kind = adjustBalanceLimitF64 cluster kind
    ∧ adjustBalanceLimit cluster kind
        = max 1 ⌊Real.sqrt ((PopulationVariance (upCounts cluster kind) : ℚ) : ℝ)⌋₊
    ∧ adjustBalanceLimit other kind = adjustBalanceLimit cluster kind := by
  have hexact := adjustBalanceLimit_eq_max_one_trunc_sigma cluster other kind hup
  refine ⟨?_, ?_, hexact.1, hexact.2⟩
  · rw [adjustBalanceLimitF64_eq_upCountsF64, maxUint64_eq_max]
  · rw [adjustBalanceLimitF64_eq_upCountsF64, adjustBalanceLimitF64_eq_upCountsF64]
    unfold upCountsF64
    rw [hup]

/-- Witness of C5: up stores with counts 1 and 5, once followed by a down store
with count 100 and once preceded by a down store with count 7. -/
theorem adjustBalanceLimitF64_eq_max_one_trunc_witness :
    (exampleCluster [exampleStore 9 false 7, exampleStore 1 true 1,
        exampleStore 2 true 5]).GetStores.filter (fun s => s.IsUp)
      = (exampleCluster [exampleStore 1 true 1, exampleStore 2 true 5,
        exampleStore 3 false 100]).GetStores.filter (fun s => s.IsUp)
    ∧ adjustBalanceLimitF64 (exampleCluster [exampleStore 9 false 7, exampleStore 1 true 1,
        exampleStore 2 true 5]) ResourceKind.RegionKind
      = adjustBalanceLimitF64 (exampleCluster [exampleStore 1 true 1, exampleStore 2 true 5,
        exampleStore 3 false 100]) ResourceKind.RegionKind
    ∧ adjustBalanceLimit (exampleCluster [exampleStore 9 false 7, exampleStore 1 true 1,
        exampleStore 2 true 5]) ResourceKind.RegionKind
      = adjustBalanceLimit (exampleCluster [exampleStore 1 true 1, exampleStore 2 true 5,
        exampleStore 3 false 100]) ResourceKind.RegionKind :=
  ⟨rfl,
    (adjustBalanceLimitF64_eq_max_one_trunc _ _ ResourceKind.RegionKind rfl).2.1,
    (adjustBalanceLimitF64_eq_max_one_trunc _ _ ResourceKind.RegionKind rfl).2.2.2⟩

/-- C5 as stated fails on the `float64` code: for up stores with counts
0, 0, 0, 0, 0, 2, 4, 4, 5 the population variance is 4 and `max 1 ⌊sigma⌋` is 2,
but the deviation computed in `float64` is `2 - 2 ^ (-52)` and the limit is 1. -/
theorem adjustBalanceLimitF64_trunc_sigma_counterexample :
    PopulationVariance
        (upCounts (exampleUpCluster [0, 0, 0, 0, 0, 2, 4, 4, 5]) ResourceKind.RegionKind) = 4
    ∧ max 1 ⌊Real.sqrt ((PopulationVariance (upCounts
          (exampleUpCluster [0, 0, 0, 0, 0, 2, 4, 4, 5]) ResourceKind.RegionKind) : ℚ) : ℝ)⌋₊
        = 2
    ∧ (StandardDeviationF64 (upCountsF64 (exampleUpCluster [0, 0, 0, 0, 0, 2, 4, 4, 5])
        ResourceKind.RegionKind)).1 = F64.fin (2 - 1 / 2 ^ 52)
    ∧ adjustBalanceLimitF64 (exampleUpCluster [0, 0, 0, 0, 0, 2, 4, 4, 5])
        ResourceKind.RegionKind = 1 := by
  have hv : PopulationVariance
      (upCounts (exampleUpCluster [0, 0, 0, 0, 0, 2, 4, 4, 5]) ResourceKind.RegionKind) = 4 := by
    decide!
  refine ⟨hv, ?_, by decide!, by decide!⟩
  rw [hv]
  have h4 : Real.sqrt (((4 : ℚ) : ℝ)) = 2 := by
    rw [show (((4 : ℚ) : ℝ)) = (2 : ℝ) ^ 2 by norm_num]
    exact Real.sqrt_sq (by norm_num)
  rw [h4]
  norm_num

/-- C6: `adjustBalanceLimit` returns at least 1 for every snapshot, also one
with no up store, and every resource kind. -/
theorem adjustBalanceLimit_ge_one {σ : Type} (cluster : Cluster σ) (kind : ResourceKind) :
    1 ≤ adjustBalanceLimit cluster kind := by
  rw [adjustBalanceLimit_eq_upCounts, maxUint64_eq_max]
  exact le_max_left _ _

/-- In exact arithmetic, if at least one store is up and all up stores report
the same count `n` for the kind, then `adjustBalanceLimit` returns exactly 1,
whatever the down stores report. -/
theorem adjustBalanceLimit_eq_one_of_equal_counts {σ : Type} (cluster : Cluster σ)
    (kind : ResourceKind) (n : Nat)
    (hup : ∃ s ∈ cluster.GetStores, s.IsUp = true)
    (heq : ∀ s ∈ cluster.GetStores, s.IsUp = true → s.ResourceCount kind = n) :
    adjustBalanceLimit cluster kind = 1 := by
  have hall : ∀ x ∈ upCounts cluster kind, x = (n : ℚ) := by
    intro x hx
    unfold upCounts at hx
    rcases List.mem_map.mp hx with ⟨s, hs, rfl⟩
    rw [List.mem_filter] at hs
    rw [heq s hs.1 hs.2]
  have hne : (upCounts cluster kind).length ≠ 0 := by
    rcases hup with ⟨s, hs, hsu⟩
    have hmem : (s.ResourceCount kind : ℚ) ∈ upCounts cluster kind :=
      List.mem_map.mpr ⟨s, List.mem_filter.mpr ⟨hs, hsu⟩, rfl⟩
    exact fun h0 => List.not_mem_nil _ (List.length_eq_zero.mp h0 ▸ hmem)
  rw [adjustBalanceLimit_eq_upCounts]
  simp [StandardDeviation, hne, PopulationVariance_of_all_eq _ _ hall, Root.toUint64,
    maxUint64]

/-- C7, as the code has it: if at least one store is up, all up stores report
the same count `c` for the kind, and the number of up stores times `c` is at
most `2 ^ 53`, so that `float64` adds the counts without rounding, then
`adjustBalanceLimitF64` returns exactly 1, whatever the down stores report. -/
theorem adjustBalanceLimitF64_eq_one_of_equal_counts {σ : Type} (cluster : Cluster σ)
    (kind : ResourceKind) (c : Nat)
    (hup : ∃ s ∈ cluster.GetStores, s.IsUp = true)
    (heq : ∀ s ∈ cluster.GetStores, s.IsUp = true → s.ResourceCount kind = c)
    (hsmall : (cluster.GetStores.filter (fun s => s.IsUp)).length * c ≤ 2 ^ 53) :
    adjustBalanceLimitF64 cluster kind = 1 := by
  have hne : upCountsF64 cluster kind ≠ [] := by
    rcases hup with ⟨s, hs, hsu⟩
    have hmem : F64.ofNat (s.ResourceCount kind) ∈ upCountsF64 cluster kind :=
      List.mem_map.mpr ⟨s, List.mem_filter.mpr ⟨hs, hsu⟩, rfl⟩
    exact List.ne_nil_of_mem hmem
  have hlen : (upCountsF64 cluster kind).length
      = (cluster.GetStores.filter (fun s => s.IsUp)).length := by
    unfold upCountsF64
    rw [List.length_map]
  have hpos : 0 < (cluster.GetStores.filter (fun s => s.IsUp)).length := by
    rw [← hlen]
    exact List.length_pos.mpr hne
  have hc : c ≤ 2 ^ 53 := le_trans (Nat.le_mul_of_pos_left _ hpos) hsmall
  have hall : ∀ x ∈ upCountsF64 cluster kind, x = F64.fin (c : ℚ) := by
    intro x hx
    unfold upCountsF64 at hx
    rcases List.mem_map.mp hx with ⟨s, hs, rfl⟩
    rw [List.mem_filter] at hs
    rw [heq s hs.1 hs.2]
    exact F64.ofNat_exact c hc
  rw [adjustBalanceLimitF64_eq_upCountsF64,
    StandardDeviationF64_const c _ hne hall (by rw [hlen]; exact hsmall)]
  simp [F64.toUint64, maxUint64]

/-- Witness of C7: two up stores that both report 7 and a down store that
reports 3. -/
theorem adjustBalanceLimitF64_eq_one_of_equal_counts_witness :
    (∃ s ∈ (exampleCluster [exampleStore 1 true 7, exampleStore 2 false 3,
        exampleStore 3 true 7]).GetStores, s.IsUp = true)
    ∧ (∀ s ∈ (exampleCluster [exampleStore 1 true 7, exampleStore 2 false 3,
        exampleStore 3 true 7]).GetStores,
        s.IsUp = true → s.ResourceCount ResourceKind.LeaderKind = 7)
    ∧ ((exampleCluster [exampleStore 1 true 7, exampleStore 2 false 3,
        exampleStore 3 true 7]).GetStores.filter (fun s => s.IsUp)).length * 7 ≤ 2 ^ 53
    ∧ adjustBalanceLimitF64 (exampleCluster [exampleStore 1 true 7, exampleStore 2 false 3,
        exampleStore 3 true 7]) ResourceKind.LeaderKind = 1 :=
  have hup : ∃ s ∈ (exampleCluster [exampleStore 1 true 7, exampleStore 2 false 3,
      exampleStore 3 true 7]).GetStores, s.IsUp = true :=
    ⟨exampleStore 1 true 7, by simp [exampleCluster], rfl⟩
  have heq : ∀ s ∈ (exampleCluster [exampleStore 1 true 7, exampleStore 2 false 3,
      exampleStore 3 true 7]).GetStores,
      s.IsUp = true → s.ResourceCount ResourceKind.LeaderKind = 7 := by
    intro s hs hu
    simp only [exampleCluster, List.mem_cons, List.mem_singleton, List.not_mem_nil,
      or_false] at hs
    rcases hs with rfl | rfl | rfl
    · rfl
    · simp [exampleStore] at hu
    · rfl
  have hsmall : ((exampleCluster [exampleStore 1 true 7, exampleStore 2 false 3,
      exampleStore 3 true 7]).GetStores.filter (fun s => s.IsUp)).length * 7 ≤ 2 ^ 53 := by
    decide!
  ⟨hup, heq, hsmall,
    adjustBalanceLimitF64_eq_one_of_equal_counts _ ResourceKind.LeaderKind 7 hup heq hsmall⟩

/-- C7 as stated fails on the `float64` code: five up stores that all report
14431311723531000 get the limit 2, because the sum of the five counts is not a
`float64` and rounds up, which moves the computed mean 2 above the count. -/
theorem adjustBalanceLimitF64_equal_counts_counterexample :
    MeanF64 (upCountsF64 (exampleUpCluster [14431311723531000, 14431311723531000,
        14431311723531000, 14431311723531000, 14431311723531000]) ResourceKind.RegionKind)
      = F64.fin 14431311723531002
    ∧ adjustBalanceLimitF64 (exampleUpCluster [14431311723531000, 14431311723531000,
        14431311723531000, 14431311723531000, 14431311723531000]) ResourceKind.RegionKind
      = 2 := by
  refine ⟨by decide!, by decide!⟩

/-- C8: when at most one store is up, the limit is computed from the sample
`upCounts`, the standard deviation of that sample is 0 and `adjustBalanceLimit`
returns exactly 1; when no store is up the routine also returns the error
`EmptyInput`, which the code discards and which does not change the result. -/
theorem adjustBalanceLimit_eq_one_of_small_sample {σ : Type} (cluster : Cluster σ)
    (kind : ResourceKind)
    (hsmall : (cluster.GetStores.filter (fun s => s.IsUp)).length ≤ 1) :
    adjustBalanceLimit cluster kind
        = maxUint64 1 (StandardDeviation (upCounts cluster kind)).1.toUint64
    ∧ (StandardDeviation (upCounts cluster kind)).1.sq = 0
    ∧ Real.sqrt (((StandardDeviation (upCounts cluster kind)).1.sq : ℚ) : ℝ) = 0
    ∧ adjustBalanceLimit cluster kind = 1
    ∧ (cluster.GetStores.filter (fun s => s.IsUp) = [] →
        (StandardDeviation (upCounts cluster kind)).2 = some StatsError.EmptyInput
        ∧ adjustBalanceLimit cluster kind = 1) := by
  have hlen : (upCounts cluster kind).length ≤ 1 := by
    unfold upCounts
    rw [List.length_map]
    exact hsmall
  have hvar : PopulationVariance (upCounts cluster kind) = 0 := by
    rcases hxs : upCounts cluster kind with _ | ⟨a, rest⟩
    · simp [PopulationVariance]
    · rw [hxs] at hlen
      have hrest : rest = [] := by
        apply List.length_eq_zero.mp
        simp only [List.length_cons] at hlen
        omega
      subst hrest
      exact PopulationVariance_of_all_eq [a] a (by simp)
  have hsq : (StandardDeviation (upCounts cluster kind)).1.sq = 0 := by
    unfold StandardDeviation
    split_ifs
    · rfl
    · exact hvar
  have hone : adjustBalanceLimit cluster kind = 1 :=
    adjustBalanceLimit_of_variance_zero cluster kind hvar
  refine ⟨adjustBalanceLimit_eq_upCounts cluster kind, hsq, ?_, hone, ?_⟩
  · rw [hsq]; simp
  · intro hnil
    refine ⟨?_, hone⟩
    simp [upCounts, hnil, StandardDeviation]

/-- Witness of C8: a snapshot whose two stores are both down, so that the
sample is empty. -/
theorem adjustBalanceLimit_eq_one_of_small_sample_witness :
    ((exampleCluster [exampleStore 1 false 5, exampleStore 2 false 9]).GetStores.filter
        (fun s => s.IsUp)).length ≤ 1
    ∧ (StandardDeviation (upCounts (exampleCluster [exampleStore 1 false 5,
        exampleStore 2 false 9]) ResourceKind.RegionKind)).1.sq = 0
    ∧ adjustBalanceLimit (exampleCluster [exampleStore 1 false 5, exampleStore 2 false 9])
        ResourceKind.RegionKind = 1 :=
  have hsmall : ((exampleCluster [exampleStore 1 false 5,
      exampleStore 2 false 9]).GetStores.filter (fun s => s.IsUp)).length ≤ 1 := by
    simp [exampleCluster, exampleStore]
  ⟨hsmall,
    (adjustBalanceLimit_eq_one_of_small_sample _ ResourceKind.RegionKind hsmall).2.1,
    (adjustBalanceLimit_eq_one_of_small_sample _ ResourceKind.RegionKind hsmall).2.2.2.1⟩

/-! ### Peer migration planning -/

/-- C9: when the selector returns a source store, `scheduleRemovePeer` prefers a
follower replica. If the follower lookup on the source returns a region, that
region is returned and the calls of the run are the selection and the follower
lookup only: the leader lookup is not consulted. If the follower lookup returns
none, the leader lookup is consulted right after it and its answer is the
region returned. -/
theorem scheduleRemovePeer_prefers_follower {σ : Type} (cluster : Cluster σ)
    (schedulerName : String) (s : Selector σ) (filters : List Filter) (w : World σ)
    (source : StoreInfo)
    (hsel : s.source cluster cluster.GetStores filters = some source) :
    (∀ region, cluster.followerRegion source.GetId = some region →
        (scheduleRemovePeer cluster schedulerName s filters w).1.1 = some region
        ∧ (scheduleRemovePeer cluster schedulerName s filters w).2.trace
            = w.trace ++ [Event.selectSource, Event.randFollowerRegion source.GetId]
        ∧ ∀ storeID, Event.randLeaderRegion storeID
            ∉ [Event.selectSource, Event.randFollowerRegion source.GetId])
    ∧ (cluster.followerRegion source.GetId = none →
        (scheduleRemovePeer cluster schedulerName s filters w).1.1
            = cluster.leaderRegion source.GetId
        ∧ ∃ rest, (scheduleRemovePeer cluster schedulerName s filters w).2.trace
            = w.trace ++ [Event.selectSource, Event.randFollowerRegion source.GetId,
                Event.randLeaderRegion source.GetId] ++ rest) := by
  constructor
  · intro region hf
    refine ⟨?_, ?_, ?_⟩
    · simp [scheduleRemovePeer, Selector.SelectSource, Cluster.RandFollowerRegion, hsel, hf]
    · simp [scheduleRemovePeer, Selector.SelectSource, Cluster.RandFollowerRegion, hsel, hf,
        World.record]
    · intro storeID
      simp
  · intro hf
    cases hl : cluster.leaderRegion source.GetId with
    | none =>
      refine ⟨?_, [Event.counterInc schedulerName "no_region"], ?_⟩
      · simp [scheduleRemovePeer, Selector.SelectSource, Cluster.RandFollowerRegion,
          Cluster.RandLeaderRegion, hsel, hf, hl]
      · simp [scheduleRemovePeer, Selector.SelectSource, Cluster.RandFollowerRegion,
          Cluster.RandLeaderRegion, hsel, hf, hl, World.record, counterInc]
    | some region =>
      refine ⟨?_, [], ?_⟩
      · simp [scheduleRemovePeer, Selector.SelectSource, Cluster.RandFollowerRegion,
          Cluster.RandLeaderRegion, hsel, hf, hl]
      · simp [scheduleRemovePeer, Selector.SelectSource, Cluster.RandFollowerRegion,
          Cluster.RandLeaderRegion, hsel, hf, hl, World.record]

/-- Witness of C9: on `exampleRegionCluster` the selector returns store 1, where
both lookups would find a region; the hypothesis holds there and the theorem
applies. -/
theorem scheduleRemovePeer_prefers_follower_witness :
    exampleSelector.source exampleRegionCluster exampleRegionCluster.GetStores []
        = some (exampleStore 1 true 2)
    ∧ (∀ region, exampleRegionCluster.followerRegion (exampleStore 1 true 2).GetId
          = some region →
        (scheduleRemovePeer exampleRegionCluster "balance-region" exampleSelector []
            exampleWorld).1.1 = some region
        ∧ (scheduleRemovePeer exampleRegionCluster "balance-region" exampleSelector []
            exampleWorld).2.trace
            = exampleWorld.trace
              ++ [Event.selectSource, Event.randFollowerRegion (exampleStore 1 true 2).GetId]
        ∧ ∀ storeID, Event.randLeaderRegion storeID
            ∉ [Event.selectSource, Event.randFollowerRegion (exampleStore 1 true 2).GetId]) :=
  ⟨rfl, (scheduleRemovePeer_prefers_follower exampleRegionCluster "balance-region"
    exampleSelector [] exampleWorld (exampleStore 1 true 2) rfl).1⟩

/-- C10: whenever `scheduleRemovePeer` returns a region, the selector returned a
source store and the peer returned with the region is the peer of that region
on the source store: if present it is one of the region's peers and its store
identifier is the source's. It is present provided both region lookups only
return regions that have a peer on the store they were asked about. -/
theorem scheduleRemovePeer_peer_on_source {σ : Type} (cluster : Cluster σ)
    (schedulerName : String) (s : Selector σ) (filters : List Filter) (w : World σ)
    (region : RegionInfo)
    (hret : (scheduleRemovePeer cluster schedulerName s filters w).1.1 = some region) :
    ∃ source, s.source cluster cluster.GetStores filters = some source
      ∧ (scheduleRemovePeer cluster schedulerName s filters w).1.2
          = region.GetStorePeer source.GetId
      ∧ (∀ peer, (scheduleRemovePeer cluster schedulerName s filters w).1.2 = some peer →
          peer ∈ region.Peers ∧ peer.StoreId = source.GetId)
      ∧ ((∀ storeID r, cluster.followerRegion storeID = some r →
            ∃ p ∈ r.Peers, p.StoreId = storeID) →
          (∀ storeID r, cluster.leaderRegion storeID = some r →
            ∃ p ∈ r.Peers, p.StoreId = storeID) →
          ∃ peer, (scheduleRemovePeer cluster schedulerName s filters w).1.2 = some peer) := by
  have hfind : ∀ (r : RegionInfo) (storeID : Nat) (peer : Peer),
      r.GetStorePeer storeID = some peer → peer ∈ r.Peers ∧ peer.StoreId = storeID := by
    intro r storeID peer hp
    unfold RegionInfo.GetStorePeer at hp
    refine ⟨List.mem_of_find?_eq_some hp, ?_⟩
    have := List.find?_some hp
    simpa using this
  have hex : ∀ (r : RegionInfo) (storeID : Nat),
      (∃ p ∈ r.Peers, p.StoreId = storeID) → ∃ peer, r.GetStorePeer storeID = some peer := by
    intro r storeID hp
    rcases hp with ⟨p, hp, hps⟩
    cases hg : r.GetStorePeer storeID with
    | some peer => exact ⟨peer, rfl⟩
    | none =>
      unfold RegionInfo.GetStorePeer at hg
      have := List.find?_eq_none.mp hg p hp
      simp [hps] at this
  cases hsel : s.source cluster cluster.GetStores filters with
  | none =>
    simp [scheduleRemovePeer, Selector.SelectSource, hsel] at hret
  | some source =>
    refine ⟨source, rfl, ?_⟩
    cases hf : cluster.followerRegion source.GetId with
    | some r =>
      have hr : r = region := by
        simpa [scheduleRemovePeer, Selector.SelectSource, Cluster.RandFollowerRegion, hsel,
          hf] using hret
      subst hr
      have hpeer : (scheduleRemovePeer cluster schedulerName s filters w).1.2
          = r.GetStorePeer source.GetId := by
        simp [scheduleRemovePeer, Selector.SelectSource, Cluster.RandFollowerRegion, hsel, hf]
      refine ⟨hpeer, ?_, ?_⟩
      · intro peer hp
        exact hfind r source.GetId peer (hpeer ▸ hp)
      · intro hfw _
        rw [hpeer]
        exact hex r source.GetId (hfw source.GetId r hf)
    | none =>
      cases hl : cluster.leaderRegion source.GetId with
      | none =>
        simp [scheduleRemovePeer, Selector.SelectSource, Cluster.RandFollowerRegion,
          Cluster.RandLeaderRegion, hsel, hf, hl] at hret
      | some r =>
        have hr : r = region := by
          simpa [scheduleRemovePeer, Selector.SelectSource, Cluster.RandFollowerRegion,
            Cluster.RandLeaderRegion, hsel, hf, hl] using hret
        subst hr
        have hpeer : (scheduleRemovePeer cluster schedulerName s filters w).1.2
            = r.GetStorePeer source.GetId := by
          simp [scheduleRemovePeer, Selector.SelectSource, Cluster.RandFollowerRegion,
            Cluster.RandLeaderRegion, hsel, hf, hl]
        refine ⟨hpeer, ?_, ?_⟩
        · intro peer hp
          exact hfind r source.GetId peer (hpeer ▸ hp)
        · intro _ hlw
          rw [hpeer]
          exact hex r source.GetId (hlw source.GetId r hl)

/-- Witness of C10: on `exampleRegionCluster` the run returns region 10, found
by the follower lookup on store 1, and the theorem applies to it. -/
theorem scheduleRemovePeer_peer_on_source_witness :
    (scheduleRemovePeer exampleRegionCluster "balance-region" exampleSelector []
        exampleWorld).1.1
      = some { Id := 10, Peers := [{ Id := 101, StoreId := 2 }, { Id := 102, StoreId := 1 }],
               Leader := some { Id := 101, StoreId := 2 } }
    ∧ ∃ source, exampleSelector.source exampleRegionCluster exampleRegionCluster.GetStores []
          = some source
      ∧ (scheduleRemovePeer exampleRegionCluster "balance-region" exampleSelector []
          exampleWorld).1.2
          = RegionInfo.GetStorePeer
              { Id := 10, Peers := [{ Id := 101, StoreId := 2 }, { Id := 102, StoreId := 1 }],
                Leader := some { Id := 101, StoreId := 2 } } source.GetId :=
  have hret : (scheduleRemovePeer exampleRegionCluster "balance-region" exampleSelector []
      exampleWorld).1.1
      = some { Id := 10, Peers := [{ Id := 101, StoreId := 2 }, { Id := 102, StoreId := 1 }],
               Leader := some { Id := 101, StoreId := 2 } } := rfl
  ⟨hret,
    (scheduleRemovePeer_peer_on_source exampleRegionCluster "balance-region" exampleSelector
      [] exampleWorld _ hret).imp (fun _ h => ⟨h.1, h.2.1⟩)⟩

/-- C11: when the selector returns a source store and both the follower and
the leader lookup on it return none, `scheduleRemovePeer` returns
(absent, absent); the calls of the run are the selection, the two lookups and
one increment of the counter keyed (`schedulerName`, "no_region"); that counter
goes up by exactly one and every other counter keeps its value. -/
theorem scheduleRemovePeer_no_region {σ : Type} (cluster : Cluster σ)
    (schedulerName : String) (s : Selector σ) (filters : List Filter) (w : World σ)
    (source : StoreInfo)
    (hsel : s.source cluster cluster.GetStores filters = some source)
    (hf : cluster.followerRegion source.GetId = none)
    (hl : cluster.leaderRegion source.GetId = none) :
    (scheduleRemovePeer cluster schedulerName s filters w).1 = (none, none)
    ∧ (scheduleRemovePeer cluster schedulerName s filters w).2.trace
        = w.trace ++ [Event.selectSource, Event.randFollowerRegion source.GetId,
            Event.randLeaderRegion source.GetId,
            Event.counterInc schedulerName "no_region"]
    ∧ counterIncs [Event.selectSource, Event.randFollowerRegion source.GetId,
          Event.randLeaderRegion source.GetId, Event.counterInc schedulerName "no_region"]
        = [(schedulerName, "no_region")]
    ∧ ∀ n r, (scheduleRemovePeer cluster schedulerName s filters w).2.schedulerCounter n r
        = w.schedulerCounter n r + (if n = schedulerName ∧ r = "no_region" then 1 else 0) := by
  refine ⟨?_, ?_, ?_, ?_⟩
  · simp [scheduleRemovePeer, Selector.SelectSource, Cluster.RandFollowerRegion,
      Cluster.RandLeaderRegion, hsel, hf, hl]
  · simp [scheduleRemovePeer, Selector.SelectSource, Cluster.RandFollowerRegion,
      Cluster.RandLeaderRegion, hsel, hf, hl, World.record, counterInc]
  · simp [counterIncs]
  · intro n r
    simp only [scheduleRemovePeer, Selector.SelectSource, Cluster.RandFollowerRegion,
      Cluster.RandLeaderRegion, hsel, hf, hl, World.record, counterInc]
    split_ifs <;> rfl

/-- Witness of C11: a snapshot with the single store 1 that hosts no region;
the selector returns store 1 and both lookups return none. -/
theorem scheduleRemovePeer_no_region_witness :
    exampleSelector.source (exampleCluster [exampleStore 1 true 2])
        (exampleCluster [exampleStore 1 true 2]).GetStores [] = some (exampleStore 1 true 2)
    ∧ (exampleCluster [exampleStore 1 true 2]).followerRegion (exampleStore 1 true 2).GetId
        = none
    ∧ (exampleCluster [exampleStore 1 true 2]).leaderRegion (exampleStore 1 true 2).GetId
        = none
    ∧ (scheduleRemovePeer (exampleCluster [exampleStore 1 true 2]) "balance-region"
        exampleSelector [] exampleWorld).1 = (none, none)
    ∧ (scheduleRemovePeer (exampleCluster [exampleStore 1 true 2]) "balance-region"
        exampleSelector [] exampleWorld).2.schedulerCounter "balance-region" "no_region"
        = exampleWorld.schedulerCounter "balance-region" "no_region"
          + (if "balance-region" = "balance-region" ∧ "no_region" = "no_region" then 1 else 0) :=
  ⟨rfl, rfl, rfl,
    (scheduleRemovePeer_no_region (exampleCluster [exampleStore 1 true 2]) "balance-region"
      exampleSelector [] exampleWorld (exampleStore 1 true 2) rfl rfl rfl).1,
    (scheduleRemovePeer_no_region (exampleCluster [exampleStore 1 true 2]) "balance-region"
      exampleSelector [] exampleWorld (exampleStore 1 true 2) rfl rfl rfl).2.2.2
      "balance-region" "no_region"⟩

/-- C12: when the selector returns no source store, `scheduleRemovePeer` returns
(absent, absent); the calls of the run are the selection and one increment of
the counter keyed (`schedulerName`, "no_store"), with no region lookup; that
counter goes up by exactly one and every other counter keeps its value.
Conversely, a run that returns a region increments no counter. -/
theorem scheduleRemovePeer_no_store {σ : Type} (cluster : Cluster σ)
    (schedulerName : String) (s : Selector σ) (filters : List Filter) (w : World σ) :
    (s.source cluster cluster.GetStores filters = none →
        (scheduleRemovePeer cluster schedulerName s filters w).1 = (none, none)
        ∧ (scheduleRemovePeer cluster schedulerName s filters w).2.trace
            = w.trace ++ [Event.selectSource, Event.counterInc schedulerName "no_store"]
        ∧ regionLookups [Event.selectSource, Event.counterInc schedulerName "no_store"] = []
        ∧ counterIncs [Event.selectSource, Event.counterInc schedulerName "no_store"]
            = [(schedulerName, "no_store")]
        ∧ ∀ n r, (scheduleRemovePeer cluster schedulerName s filters w).2.schedulerCounter n r
            = w.schedulerCounter n r
              + (if n = schedulerName ∧ r = "no_store" then 1 else 0))
    ∧ (∀ region, (scheduleRemovePeer cluster schedulerName s filters w).1.1 = some region →
        (scheduleRemovePeer cluster schedulerName s filters w).2.schedulerCounter
            = w.schedulerCounter
        ∧ ∃ evs, (scheduleRemovePeer cluster schedulerName s filters w).2.trace
            = w.trace ++ evs ∧ counterIncs evs = []) := by
  constructor
  · intro hsel
    refine ⟨?_, ?_, ?_, ?_, ?_⟩
    · simp [scheduleRemovePeer, Selector.SelectSource, hsel]
    · simp [scheduleRemovePeer, Selector.SelectSource, hsel, World.record, counterInc]
    · simp [regionLookups]
    · simp [counterIncs]
    · intro n r
      simp only [scheduleRemovePeer, Selector.SelectSource, hsel, World.record, counterInc]
      split_ifs <;> rfl
  · intro region hret
    cases hsel : s.source cluster cluster.GetStores filters with
    | none =>
      simp [scheduleRemovePeer, Selector.SelectSource, hsel] at hret
    | some source =>
      cases hf : cluster.followerRegion source.GetId with
      | some r =>
        refine ⟨?_, [Event.selectSource, Event.randFollowerRegion source.GetId], ?_, ?_⟩
        · simp [scheduleRemovePeer, Selector.SelectSource, Cluster.RandFollowerRegion, hsel,
            hf, World.record]
        · simp [scheduleRemovePeer, Selector.SelectSource, Cluster.RandFollowerRegion, hsel,
            hf, World.record]
        · simp [counterIncs]
      | none =>
        cases hl : cluster.leaderRegion source.GetId with
        | none =>
          simp [scheduleRemovePeer, Selector.SelectSource, Cluster.RandFollowerRegion,
            Cluster.RandLeaderRegion, hsel, hf, hl] at hret
        | some r =>
          refine ⟨?_, [Event.selectSource, Event.randFollowerRegion source.GetId,
            Event.randLeaderRegion source.GetId], ?_, ?_⟩
          · simp [scheduleRemovePeer, Selector.SelectSource, Cluster.RandFollowerRegion,
              Cluster.RandLeaderRegion, hsel, hf, hl, World.record]
          · simp [scheduleRemovePeer, Selector.SelectSource, Cluster.RandFollowerRegion,
              Cluster.RandLeaderRegion, hsel, hf, hl, World.record]
          · simp [counterIncs]

/-- Witness of C12: on a snapshot without stores the selector returns none, and
on `exampleRegionCluster` the run returns region 10; the theorem applies to
both. -/
theorem scheduleRemovePeer_no_store_witness :
    exampleSelector.source (exampleCluster []) (exampleCluster []).GetStores [] = none
    ∧ (scheduleRemovePeer (exampleCluster []) "balance-region" exampleSelector []
        exampleWorld).1 = (none, none)
    ∧ (scheduleRemovePeer (exampleCluster []) "balance-region" exampleSelector []
        exampleWorld).2.trace
        = exampleWorld.trace ++ [Event.selectSource,
            Event.counterInc "balance-region" "no_store"]
    ∧ (scheduleRemovePeer exampleRegionCluster "balance-region" exampleSelector []
        exampleWorld).2.schedulerCounter = exampleWorld.schedulerCounter :=
  have hnone : exampleSelector.source (exampleCluster []) (exampleCluster []).GetStores []
      = none := rfl
  ⟨hnone,
    ((scheduleRemovePeer_no_store (exampleCluster []) "balance-region" exampleSelector []
      exampleWorld).1 hnone).1,
    ((scheduleRemovePeer_no_store (exampleCluster []) "balance-region" exampleSelector []
      exampleWorld).1 hnone).2.1,
    ((scheduleRemovePeer_no_store exampleRegionCluster "balance-region" exampleSelector []
      exampleWorld).2 _ rfl).1⟩

/-- C13: `scheduleAddPeer` returns a peer if and only if the selector returns a
target store and the allocation for that store's identifier succeeds, and the
peer returned is the one the allocation produced; when no target qualifies or
the allocation fails the result is absent. -/
theorem scheduleAddPeer_some_iff {σ : Type} (cluster : Cluster σ) (s : Selector σ)
    (filters : List Filter) (w : World σ) :
    (∀ peer, (scheduleAddPeer cluster s filters w).1 = some peer
        ↔ ∃ target, s.target cluster cluster.GetStores filters = some target
            ∧ (cluster.allocPeer w.allocState target.GetId).1 = Except.ok peer)
    ∧ (s.target cluster cluster.GetStores filters = none →
        (scheduleAddPeer cluster s filters w).1 = none)
    ∧ (∀ target err, s.target cluster cluster.GetStores filters = some target →
        (cluster.allocPeer w.allocState target.GetId).1 = Except.error err →
        (scheduleAddPeer cluster s filters w).1 = none) := by
  refine ⟨?_, ?_, ?_⟩
  · intro peer
    cases hsel : s.target cluster cluster.GetStores filters with
    | none =>
      simp [scheduleAddPeer, Selector.SelectTarget, hsel]
    | some target =>
      cases ha : (cluster.allocPeer w.allocState target.GetId).1 with
      | error err =>
        simp [scheduleAddPeer, Selector.SelectTarget, Cluster.AllocPeer, World.record, hsel,
          ha]
      | ok newPeer =>
        simp [scheduleAddPeer, Selector.SelectTarget, Cluster.AllocPeer, World.record, hsel,
          ha]
  · intro hsel
    simp [scheduleAddPeer, Selector.SelectTarget, hsel]
  · intro target err hsel ha
    simp [scheduleAddPeer, Selector.SelectTarget, Cluster.AllocPeer, World.record, hsel, ha]

/-- Witness of C13: on a snapshot with store 4 whose allocation succeeds, the
run returns the peer with identifier 0 on store 4; on one whose allocation
fails, and on one without stores, the result is absent. -/
theorem scheduleAddPeer_some_iff_witness :
    (scheduleAddPeer (exampleCluster [exampleStore 4 true 2]) exampleSelector []
        exampleWorld).1 = some { Id := 0, StoreId := 4 }
    ∧ (scheduleAddPeer (exampleFailingCluster [exampleStore 4 true 2]) exampleSelector []
        exampleWorld).1 = none
    ∧ (scheduleAddPeer (exampleCluster []) exampleSelector [] exampleWorld).1 = none :=
  ⟨((scheduleAddPeer_some_iff (exampleCluster [exampleStore 4 true 2]) exampleSelector []
      exampleWorld).1 { Id := 0, StoreId := 4 }).2 ⟨exampleStore 4 true 2, rfl, rfl⟩,
    (scheduleAddPeer_some_iff (exampleFailingCluster [exampleStore 4 true 2]) exampleSelector
      [] exampleWorld).2.2 (exampleStore 4 true 2) "no identifier left" rfl rfl,
    (scheduleAddPeer_some_iff (exampleCluster []) exampleSelector [] exampleWorld).2.1 rfl⟩

/-- C14: one run of `scheduleAddPeer` calls the allocation exactly once, for the
target's identifier, when the selector returns a target, and the allocation
state it leaves is the one after that single allocation, also when the
allocation failed; when the selector returns none the only call is the
selection and the allocation state is unchanged. A run of `scheduleRemovePeer`
never calls the allocation and leaves the allocation state unchanged. -/
theorem scheduleAddPeer_alloc_once {σ : Type} (cluster : Cluster σ) (s : Selector σ)
    (filters : List Filter) (w : World σ) :
    (∀ target, s.target cluster cluster.GetStores filters = some target →
        ∃ evs, (scheduleAddPeer cluster s filters w).2.trace = w.trace ++ evs
          ∧ allocCalls evs = [target.GetId]
          ∧ (scheduleAddPeer cluster s filters w).2.allocState
              = (cluster.allocPeer w.allocState target.GetId).2)
    ∧ (s.target cluster cluster.GetStores filters = none →
        (scheduleAddPeer cluster s filters w).2.trace = w.trace ++ [Event.selectTarget]
        ∧ allocCalls [Event.selectTarget] = []
        ∧ (scheduleAddPeer cluster s filters w).2.allocState = w.allocState)
    ∧ (∀ schedulerName,
        ∃ evs, (scheduleRemovePeer cluster schedulerName s filters w).2.trace = w.trace ++ evs
          ∧ allocCalls evs = []
          ∧ (scheduleRemovePeer cluster schedulerName s filters w).2.allocState
              = w.allocState) := by
  refine ⟨?_, ?_, ?_⟩
  · intro target hsel
    cases ha : (cluster.allocPeer w.allocState target.GetId).1 with
    | error err =>
      refine ⟨[Event.selectTarget, Event.allocPeer target.GetId,
        Event.logErrorf "failed to allocate peer: %v" err], ?_, ?_, ?_⟩
      · simp [scheduleAddPeer, Selector.SelectTarget, Cluster.AllocPeer, World.record, hsel,
          ha, logErrorf]
      · simp [allocCalls]
      · simp [scheduleAddPeer, Selector.SelectTarget, Cluster.AllocPeer, World.record, hsel,
          ha, logErrorf]
    | ok newPeer =>
      refine ⟨[Event.selectTarget, Event.allocPeer target.GetId], ?_, ?_, ?_⟩
      · simp [scheduleAddPeer, Selector.SelectTarget, Cluster.AllocPeer, World.record, hsel,
          ha]
      · simp [allocCalls]
      · simp [scheduleAddPeer, Selector.SelectTarget, Cluster.AllocPeer, World.record, hsel,
          ha]
  · intro hsel
    refine ⟨?_, ?_, ?_⟩
    · simp [scheduleAddPeer, Selector.SelectTarget, World.record, hsel]
    · simp [allocCalls]
    · simp [scheduleAddPeer, Selector.SelectTarget, World.record, hsel]
  · intro schedulerName
    cases hsel : s.source cluster cluster.GetStores filters with
    | none =>
      refine ⟨[Event.selectSource, Event.counterInc schedulerName "no_store"], ?_, ?_, ?_⟩
      · simp [scheduleRemovePeer, Selector.SelectSource, hsel, World.record, counterInc]
      · simp [allocCalls]
      · simp [scheduleRemovePeer, Selector.SelectSource, hsel, World.record, counterInc]
    | some source =>
      cases hf : cluster.followerRegion source.GetId with
      | some r =>
        refine ⟨[Event.selectSource, Event.randFollowerRegion source.GetId], ?_, ?_, ?_⟩
        · simp [scheduleRemovePeer, Selector.SelectSource, Cluster.RandFollowerRegion, hsel,
            hf, World.record]
        · simp [allocCalls]
        · simp [scheduleRemovePeer, Selector.SelectSource, Cluster.RandFollowerRegion, hsel,
            hf, World.record]
      | none =>
        cases hl : cluster.leaderRegion source.GetId with
        | none =>
          refine ⟨[Event.selectSource, Event.randFollowerRegion source.GetId,
            Event.randLeaderRegion source.GetId,
            Event.counterInc schedulerName "no_region"], ?_, ?_, ?_⟩
          · simp [scheduleRemovePeer, Selector.SelectSource, Cluster.RandFollowerRegion,
              Cluster.RandLeaderRegion, hsel, hf, hl, World.record, counterInc]
          · simp [allocCalls]
          · simp [scheduleRemovePeer, Selector.SelectSource, Cluster.RandFollowerRegion,
              Cluster.RandLeaderRegion, hsel, hf, hl, World.record, counterInc]
        | some r =>
          refine ⟨[Event.selectSource, Event.randFollowerRegion source.GetId,
            Event.randLeaderRegion source.GetId], ?_, ?_, ?_⟩
          · simp [scheduleRemovePeer, Selector.SelectSource, Cluster.RandFollowerRegion,
              Cluster.RandLeaderRegion, hsel, hf, hl, World.record]
          · simp [allocCalls]
          · simp [scheduleRemovePeer, Selector.SelectSource, Cluster.RandFollowerRegion,
              Cluster.RandLeaderRegion, hsel, hf, hl, World.record]

/-- Witness of C14: with store 4 as target and a failing allocation the
allocation state after the run is the one the single failed allocation left,
and on a snapshot without stores the allocation state is unchanged. -/
theorem scheduleAddPeer_alloc_once_witness :
    exampleSelector.target (exampleFailingCluster [exampleStore 4 true 2])
        (exampleFailingCluster [exampleStore 4 true 2]).GetStores []
      = some (exampleStore 4 true 2)
    ∧ (∃ evs, (scheduleAddPeer (exampleFailingCluster [exampleStore 4 true 2])
          exampleSelector [] exampleWorld).2.trace = exampleWorld.trace ++ evs
        ∧ allocCalls evs = [(exampleStore 4 true 2).GetId]
        ∧ (scheduleAddPeer (exampleFailingCluster [exampleStore 4 true 2]) exampleSelector []
            exampleWorld).2.allocState
          = ((exampleFailingCluster [exampleStore 4 true 2]).allocPeer exampleWorld.allocState
              (exampleStore 4 true 2).GetId).2)
    ∧ (scheduleAddPeer (exampleCluster []) exampleSelector [] exampleWorld).2.allocState
        = exampleWorld.allocState :=
  ⟨rfl,
    (scheduleAddPeer_alloc_once (exampleFailingCluster [exampleStore 4 true 2])
      exampleSelector [] exampleWorld).1 (exampleStore 4 true 2) rfl,
    ((scheduleAddPeer_alloc_once (exampleCluster []) exampleSelector []
      exampleWorld).2.1 rfl).2.2⟩

/-! ### Taint cache -/

/-- C15, as the code has it: `newTaintCache` constructs the cache with the
sweep interval `taintCacheGCInterval` and the time-to-live `taintCacheTTL`, in
that order, and the sweep interval is strictly shorter than the time-to-live:
the sweep interval is 5 seconds and the time-to-live is 5 minutes, that is 300
seconds, 60 times the sweep interval. -/
theorem newTaintCache_parameters :
    newTaintCache = NewIDTTL taintCacheGCInterval taintCacheTTL
    ∧ newTaintCache.gcInterval = taintCacheGCInterval
    ∧ newTaintCache.ttl = taintCacheTTL
    ∧ newTaintCache.items = []
    ∧ newTaintCache.gcInterval < newTaintCache.ttl
    ∧ taintCacheGCInterval = 5 * Second
    ∧ taintCacheTTL = 5 * Minute
    ∧ taintCacheTTL = 300 * Second
    ∧ taintCacheTTL = 60 * taintCacheGCInterval := by
  refine ⟨rfl, rfl, rfl, rfl, ?_, ?_, ?_, ?_, ?_⟩ <;>
    simp [newTaintCache, NewIDTTL, taintCacheGCInterval, taintCacheTTL, Minute, Second]

/-- C15 as stated fails: the time-to-live of the cache of `newTaintCache` is
not 5 times its sweep interval, nor 5 sweep intervals longer than it. -/
theorem newTaintCache_ttl_not_five_times_gcInterval :
    ¬ (newTaintCache.gcInterval < newTaintCache.ttl
        ∧ newTaintCache.ttl = 5 * newTaintCache.gcInterval)
    ∧ newTaintCache.ttl ≠ newTaintCache.gcInterval + 5 * newTaintCache.gcInterval := by
  constructor
  · rintro ⟨_, h⟩
    simp [newTaintCache, NewIDTTL, taintCacheGCInterval, taintCacheTTL, Minute, Second] at h
  · simp [newTaintCache, NewIDTTL, taintCacheGCInterval, taintCacheTTL, Minute, Second]

/-- C16: take the cache of `newTaintCache` after any operations `pre`, then
`Put x` at time `t0`. `IsTainted x` is true at once, at time `t0`, and at every
time `t1` by which no more than the time-to-live has elapsed. At a time `t`
with more than the time-to-live elapsed since `t0`, `IsTainted x` is false
after any later operations `post` that contain no `Put x`, and in particular
when nothing, so no sweep either, has happened in between. -/
theorem newTaintCache_IsTainted_after_Put (pre post : List CacheOp) (x : Nat) (t0 t : Int)
    (hpost : ∀ op ∈ post, op.isPutOf x = false)
    (hlate : taintCacheTTL < t - t0) :
    ((newTaintCache.run pre).Put x t0).IsTainted x t0 = true
    ∧ (∀ t1, t1 - t0 ≤ taintCacheTTL →
        ((newTaintCache.run pre).Put x t0).IsTainted x t1 = true)
    ∧ (((newTaintCache.run pre).Put x t0).run post).IsTainted x t = false
    ∧ ((newTaintCache.run pre).Put x t0).IsTainted x t = false := by
  have httl : (newTaintCache.run pre).ttl = taintCacheTTL := by
    rw [TTLUint64.run_ttl]; rfl
  have hpos : (0 : Int) ≤ taintCacheTTL := by
    simp [taintCacheTTL, Minute, Second]
  have hfalse : ∀ ops : List CacheOp, (∀ op ∈ ops, op.isPutOf x = false) →
      (((newTaintCache.run pre).Put x t0).run ops).IsTainted x t = false := by
    intro ops hops
    rw [Bool.eq_false_iff]
    intro h
    unfold TTLUint64.IsTainted at h
    rcases List.any_eq_true.mp h with ⟨e, he, hcond⟩
    simp only [Bool.and_eq_true, beq_iff_eq, decide_eq_true_eq] at hcond
    rw [TTLUint64.entries_after_Put _ x t0 ops hops e he hcond.1, TTLUint64.run_ttl] at hcond
    have h2 : t - t0 ≤ taintCacheTTL := by
      have := hcond.2
      simpa [TTLUint64.Put, httl] using this
    omega
  have htrue : ∀ t1, t1 - t0 ≤ taintCacheTTL →
      ((newTaintCache.run pre).Put x t0).IsTainted x t1 = true := by
    intro t1 h1
    exact (TTLUint64.IsTainted_after_Put_iff (newTaintCache.run pre) x t0 t1 []
      (by simp) (by simp)).mpr (by rw [httl]; exact h1)
  exact ⟨htrue t0 (by omega), htrue, hfalse post hpost, hfalse [] (by simp)⟩

/-- Witness of C16: store 3 is put at time 10 into a cache that has seen a `Put`
of store 7 and a sweep; later store 7 is put again, and the query comes one
nanosecond after the time-to-live has elapsed. -/
theorem newTaintCache_IsTainted_after_Put_witness :
    (∀ op ∈ [CacheOp.put 7 20], op.isPutOf 3 = false)
    ∧ taintCacheTTL < (300000000011 : Int) - 10
    ∧ ((newTaintCache.run [CacheOp.put 7 0, CacheOp.sweep 5]).Put 3 10).IsTainted 3 10 = true
    ∧ (∀ t1, t1 - 10 ≤ taintCacheTTL →
        ((newTaintCache.run [CacheOp.put 7 0, CacheOp.sweep 5]).Put 3 10).IsTainted 3 t1 = true)
    ∧ (((newTaintCache.run [CacheOp.put 7 0, CacheOp.sweep 5]).Put 3 10).run
        [CacheOp.put 7 20]).IsTainted 3 300000000011 = false
    ∧ ((newTaintCache.run [CacheOp.put 7 0, CacheOp.sweep 5]).Put 3 10).IsTainted 3
        300000000011 = false :=
  have hpost : ∀ op ∈ [CacheOp.put 7 20], op.isPutOf 3 = false := by
    simp [CacheOp.isPutOf]
  have hlate : taintCacheTTL < (300000000011 : Int) - 10 := by
    simp [taintCacheTTL, Minute, Second]
  ⟨hpost, hlate,
    newTaintCache_IsTainted_after_Put [CacheOp.put 7 0, CacheOp.sweep 5] [CacheOp.put 7 20]
      3 10 300000000011 hpost hlate⟩

/-! ### Further properties of the balance test, the limit and the extrema -/

/-- In exact arithmetic, for equal positive weights `shouldBalance s w t w m` is
true exactly when `s - t > 2 * m`; hence with `m ≥ 0` a move from a source whose
size does not exceed the target's is never approved. -/
theorem shouldBalance_equal_weights (s t : Int) (w m : ℚ) (hw : 0 < w) :
    (shouldBalance s w t w m = true ↔ (s : ℚ) - (t : ℚ) > 2 * m)
    ∧ (0 ≤ m → s ≤ t → shouldBalance s w t w m = false) := by
  have hiff : shouldBalance s w t w m = true ↔ (s : ℚ) - (t : ℚ) > 2 * m := by
    rw [shouldBalance_pos_iff s t w w m hw hw, mul_lt_mul_right hw]
    constructor <;> intro h <;> linarith
  refine ⟨hiff, ?_⟩
  intro hm hst
  rw [Bool.eq_false_iff]
  intro h
  have h1 := hiff.mp h
  have h2 : (s : ℚ) ≤ (t : ℚ) := by exact_mod_cast hst
  linarith

/-- C17, as the code has it. For equal positive weights `w` and 64-bit sizes
`s`, `t`, which `float64(...)` converts to `roundQ s` and `roundQ t`: an
approval with a finite move size `mq` implies `roundQ s - roundQ t > 2 * mq`,
hence `s - t > 2 * mq` when the sizes have magnitude at most `2 ^ 53`; and with
a move size `m ≥ 0` a move from a source whose size does not exceed the target's
is never approved. Read in exact arithmetic, `shouldBalance s w t w m` is true
exactly when `s - t > 2 * m`. -/
theorem shouldBalanceF64_equal_weights (s t : ℤ) (w : F64)
    (hs : |s| ≤ 2 ^ 63) (ht : |t| ≤ 2 ^ 63) (hw : F64.gt w (F64.fin 0) = true) :
    (F64.ofInt s = F64.fin (roundQ (s : ℚ)) ∧ F64.ofInt t = F64.fin (roundQ (t : ℚ)))
    ∧ (∀ mq : ℚ, shouldBalanceF64 s w t w (F64.fin mq) = true →
        roundQ (s : ℚ) - roundQ (t : ℚ) > 2 * mq)
    ∧ (|s| ≤ 2 ^ 53 → |t| ≤ 2 ^ 53 →
        ∀ mq : ℚ, shouldBalanceF64 s w t w (F64.fin mq) = true →
          (s : ℚ) - (t : ℚ) > 2 * mq)
    ∧ (∀ m : F64, F64.ge m (F64.fin 0) = true → s ≤ t →
        shouldBalanceF64 s w t w m = false)
    ∧ (∀ wq mq : ℚ, 0 < wq →
        (shouldBalance s wq t wq mq = true ↔ (s : ℚ) - (t : ℚ) > 2 * mq)) := by
  refine ⟨⟨F64.ofInt_int64 s hs, F64.ofInt_int64 t ht⟩, ?_, ?_, ?_, ?_⟩
  · intro mq h
    exact shouldBalanceF64_only_if s t w w mq hs ht hw hw rfl h
  · intro hs53 ht53 mq h
    have := shouldBalanceF64_only_if s t w w mq hs ht hw hw rfl h
    rwa [roundQ_intCast s hs53, roundQ_intCast t ht53] at this
  · intro m hm hst
    rcases F64.ge_zero_cases hm with ⟨mq, rfl, hmq⟩ | rfl
    · rw [Bool.eq_false_iff]
      intro h
      have h1 := shouldBalanceF64_only_if s t w w mq hs ht hw hw rfl h
      have h2 : roundQ (s : ℚ) ≤ roundQ (t : ℚ) := roundQ_mono (by exact_mod_cast hst)
      linarith
    · exact shouldBalanceF64_pinf s t w w hs hw hw
  · intro wq mq hwq
    exact (shouldBalance_equal_weights s t wq mq hwq).1

/-- Witness of C17 at weight 3: sizes 100 and 70 with move size 10 are approved,
and `100 - 70 > 2 * 10`. -/
theorem shouldBalanceF64_equal_weights_witness :
    |(100 : ℤ)| ≤ 2 ^ 63 ∧ |(70 : ℤ)| ≤ 2 ^ 63
    ∧ F64.gt (F64.fin 3) (F64.fin 0) = true
    ∧ shouldBalanceF64 100 (F64.fin 3) 70 (F64.fin 3) (F64.fin 10) = true
    ∧ ((100 : ℤ) : ℚ) - ((70 : ℤ) : ℚ) > 2 * 10 :=
  ⟨by decide!, by decide!, by decide!, by decide!,
    (shouldBalanceF64_equal_weights 100 70 (F64.fin 3) (by decide!) (by decide!)
      (by decide!)).2.2.1 (by decide!) (by decide!) 10 (by decide!)⟩

/-- C17 as stated fails on the `float64` code in both directions. With weights 1,
sizes 3 and 1 and the move size `1 - 2 ^ (-53)`, a `float64`, the move is
rejected although `3 - 1 > 2 * m`; with sizes `2 ^ 53 + 2` and `2 ^ 53 + 1` and
the move size `1 / 2` it is approved although `s - t > 2 * m` fails. -/
theorem shouldBalanceF64_equal_weights_counterexample :
    (F64.ofRat (1 - 1 / 2 ^ 53) = F64.fin (1 - 1 / 2 ^ 53)
      ∧ shouldBalanceF64 3 (F64.fin 1) 1 (F64.fin 1) (F64.fin (1 - 1 / 2 ^ 53)) = false
      ∧ ((3 : ℤ) : ℚ) - ((1 : ℤ) : ℚ) > 2 * (1 - 1 / 2 ^ 53))
    ∧ (F64.ofRat (1 / 2) = F64.fin (1 / 2)
      ∧ shouldBalanceF64 (2 ^ 53 + 2) (F64.fin 1) (2 ^ 53 + 1) (F64.fin 1) (F64.fin (1 / 2))
          = true
      ∧ ¬ (((2 ^ 53 + 2 : ℤ) : ℚ) - ((2 ^ 53 + 1 : ℤ) : ℚ) > 2 * (1 / 2))) := by
  refine ⟨⟨by decide!, by decide!, by decide!⟩, ⟨by decide!, by decide!, by decide!⟩⟩

/-- C18: `shouldBalance` is monotone for positive weights: an approved move
stays approved for a source at least as large, a target at most as large and a
move size at most as large. -/
theorem shouldBalance_mono (s s2 t t2 : Int) (sw tw m m2 : ℚ)
    (hsw : 0 < sw) (htw : 0 < tw) (hs : s ≤ s2) (ht : t2 ≤ t) (hm : m2 ≤ m)
    (h : shouldBalance s sw t tw m = true) :
    shouldBalance s2 sw t2 tw m2 = true := by
  rw [shouldBalance_pos_iff _ _ _ _ _ hsw htw] at h ⊢
  have hs' : (s : ℚ) ≤ (s2 : ℚ) := by exact_mod_cast hs
  have ht' : (t2 : ℚ) ≤ (t : ℚ) := by exact_mod_cast ht
  have h1 : ((t2 : ℚ) + m2) * sw ≤ ((t : ℚ) + m) * sw :=
    mul_le_mul_of_nonneg_right (by linarith) (le_of_lt hsw)
  have h2 : ((s : ℚ) - m) * tw ≤ ((s2 : ℚ) - m2) * tw :=
    mul_le_mul_of_nonneg_right (by linarith) (le_of_lt htw)
  linarith

/-- Witness of C18: the approved move of 10 from size 100 to size 0 with
weights 1 and 2 stays approved for sizes 120 and -5 and move size 4. -/
theorem shouldBalance_mono_witness :
    (0 : ℚ) < 1 ∧ (0 : ℚ) < 2 ∧ (100 : Int) ≤ 120 ∧ (-5 : Int) ≤ 0 ∧ (4 : ℚ) ≤ 10
    ∧ shouldBalance 100 1 0 2 10 = true
    ∧ shouldBalance 120 1 (-5) 2 4 = true :=
  have h : shouldBalance 100 1 0 2 10 = true := by
    simp [shouldBalance]; norm_num
  ⟨by norm_num, by norm_num, by norm_num, by norm_num, by norm_num, h,
    shouldBalance_mono 100 120 0 (-5) 1 2 10 4 (by norm_num) (by norm_num) (by norm_num)
      (by norm_num) (by norm_num) h⟩

/-- C19, with the numbers read as exact reals: the limit never exceeds half the
observed spread. When at least one store is up and the counts of the up stores
lie between `m` and `M`, in particular when `M` is the largest and `m` the
smallest of them, `adjustBalanceLimit` is at most `max 1 ((M - m) / 2)`, the
division rounding down. -/
theorem adjustBalanceLimit_le_half_spread {σ : Type} (cluster : Cluster σ)
    (kind : ResourceKind) (M m : Nat)
    (hup : ∃ s ∈ cluster.GetStores, s.IsUp = true)
    (hM : ∀ s ∈ cluster.GetStores, s.IsUp = true → s.ResourceCount kind ≤ M)
    (hm : ∀ s ∈ cluster.GetStores, s.IsUp = true → m ≤ s.ResourceCount kind) :
    adjustBalanceLimit cluster kind ≤ max 1 ((M - m) / 2) := by
  have hall : ∀ x ∈ upCounts cluster kind, (m : ℚ) ≤ x ∧ x ≤ (M : ℚ) := by
    intro x hx
    unfold upCounts at hx
    rcases List.mem_map.mp hx with ⟨s, hs, rfl⟩
    rw [List.mem_filter] at hs
    exact ⟨by exact_mod_cast hm s hs.1 hs.2, by exact_mod_cast hM s hs.1 hs.2⟩
  have hmM : m ≤ M := by
    rcases hup with ⟨s, hs, hsu⟩
    exact le_trans (hm s hs hsu) (hM s hs hsu)
  have hne : upCounts cluster kind ≠ [] := by
    rcases hup with ⟨s, hs, hsu⟩
    have hmem : (s.ResourceCount kind : ℚ) ∈ upCounts cluster kind :=
      List.mem_map.mpr ⟨s, List.mem_filter.mpr ⟨hs, hsu⟩, rfl⟩
    exact List.ne_nil_of_mem hmem
  have hlen : (upCounts cluster kind).length ≠ 0 := fun h0 => hne (List.length_eq_zero.mp h0)
  have hvar := PopulationVariance_le_half_spread_sq _ _ _ hne hall
  have hcast : ((M : ℚ) - (m : ℚ)) = ((M - m : ℕ) : ℚ) := by
    rw [Nat.cast_sub hmM]
  rw [hcast] at hvar
  have hd : ((M - m : ℕ) : ℚ) < 2 * ((((M - m) / 2 : ℕ) : ℚ) + 1) := by
    have : M - m < 2 * ((M - m) / 2 + 1) := by omega
    exact_mod_cast this
  have hd0 : (0 : ℚ) ≤ ((M - m : ℕ) : ℚ) := Nat.cast_nonneg _
  have hfloor : ⌊PopulationVariance (upCounts cluster kind)⌋₊
      < ((M - m) / 2 + 1) * ((M - m) / 2 + 1) := by
    apply lt_of_le_of_lt (Nat.floor_mono hvar)
    rw [Nat.floor_lt (by positivity)]
    push_cast
    nlinarith
  have hsqrt : Nat.sqrt ⌊PopulationVariance (upCounts cluster kind)⌋₊ ≤ (M - m) / 2 :=
    Nat.lt_succ_iff.mp (Nat.sqrt_lt.mpr hfloor)
  rw [adjustBalanceLimit_eq_upCounts, maxUint64_eq_max]
  simp only [StandardDeviation, hlen, if_false, Root.toUint64]
  exact max_le_max (le_refl 1) hsqrt

/-- Witness of C19: up stores with counts 1 and 5 and a down store with count
100; the bounds are the smallest and the largest count of the up stores. -/
theorem adjustBalanceLimit_le_half_spread_witness :
    (∃ s ∈ (exampleCluster [exampleStore 1 true 1, exampleStore 2 true 5,
        exampleStore 3 false 100]).GetStores, s.IsUp = true)
    ∧ adjustBalanceLimit (exampleCluster [exampleStore 1 true 1, exampleStore 2 true 5,
        exampleStore 3 false 100]) ResourceKind.RegionKind ≤ max 1 ((5 - 1) / 2) :=
  have hup : ∃ s ∈ (exampleCluster [exampleStore 1 true 1, exampleStore 2 true 5,
      exampleStore 3 false 100]).GetStores, s.IsUp = true :=
    ⟨exampleStore 1 true 1, by simp [exampleCluster], rfl⟩
  ⟨hup, adjustBalanceLimit_le_half_spread _ ResourceKind.RegionKind 5 1 hup
    (by
      intro s hs hu
      simp only [exampleCluster, List.mem_cons, List.mem_singleton, List.not_mem_nil,
        or_false] at hs
      rcases hs with rfl | rfl | rfl
      · simp [exampleStore]
      · simp [exampleStore]
      · simp [exampleStore] at hu)
    (by
      intro s hs hu
      simp only [exampleCluster, List.mem_cons, List.mem_singleton, List.not_mem_nil,
        or_false] at hs
      rcases hs with rfl | rfl | rfl
      · simp [exampleStore]
      · simp [exampleStore]
      · simp [exampleStore] at hu)⟩

/-- C19 as stated fails on the `float64` code: for up stores with counts 0 and
`2 ^ 54 + 3` the conversion rounds the larger count to `2 ^ 54 + 4` and the
limit is `2 ^ 53 + 2`, above the bound `max 1 ((M - m) / 2) = 2 ^ 53 + 1` for
the largest count `M = 2 ^ 54 + 3` and the smallest count `m = 0`. -/
theorem adjustBalanceLimitF64_half_spread_counterexample :
    F64.ofNat (2 ^ 54 + 3) = F64.fin (2 ^ 54 + 4)
    ∧ adjustBalanceLimitF64 (exampleUpCluster [0, 2 ^ 54 + 3]) ResourceKind.RegionKind
        = 9007199254740994
    ∧ max 1 ((2 ^ 54 + 3 - 0) / 2) = 9007199254740993
    ∧ ¬ (adjustBalanceLimitF64 (exampleUpCluster [0, 2 ^ 54 + 3]) ResourceKind.RegionKind
        ≤ max 1 ((2 ^ 54 + 3 - 0) / 2)) := by
  refine ⟨by decide!, by decide!, by decide!, by decide!⟩

/-- C20: for unsigned 64-bit `a` and `b`, `minUint64 a b` and `maxUint64 a b` are
each one of `a` and `b` and are again unsigned 64-bit values; the minimum is at
most both and the maximum at least both; both functions are commutative; and
the minimum and the maximum add up to `a + b` modulo `2 ^ 64`. -/
theorem minUint64_maxUint64_spec (a b : Nat) (ha : a < 2 ^ 64) (hb : b < 2 ^ 64) :
    (minUint64 a b = a ∨ minUint64 a b = b)
    ∧ (maxUint64 a b = a ∨ maxUint64 a b = b)
    ∧ minUint64 a b < 2 ^ 64 ∧ maxUint64 a b < 2 ^ 64
    ∧ minUint64 a b ≤ a ∧ minUint64 a b ≤ b
    ∧ a ≤ maxUint64 a b ∧ b ≤ maxUint64 a b
    ∧ minUint64 a b = minUint64 b a
    ∧ maxUint64 a b = maxUint64 b a
    ∧ (minUint64 a b + maxUint64 a b) % 2 ^ 64 = (a + b) % 2 ^ 64 := by
  have hmin : minUint64 a b = min a b := by
    unfold minUint64
    split_ifs with h
    · exact (min_eq_left (le_of_lt h)).symm
    · exact (min_eq_right (not_lt.mp h)).symm
  rw [hmin, maxUint64_eq_max]
  have hmin' : minUint64 b a = min b a := by
    unfold minUint64
    split_ifs with h
    · exact (min_eq_left (le_of_lt h)).symm
    · exact (min_eq_right (not_lt.mp h)).symm
  rw [hmin', maxUint64_eq_max]
  refine ⟨?_, ?_, ?_, ?_, ?_, ?_, ?_, ?_, ?_, ?_, ?_⟩
  · rcases le_total a b with h | h
    · exact Or.inl (min_eq_left h)
    · exact Or.inr (min_eq_right h)
  · rcases le_total a b with h | h
    · exact Or.inr (max_eq_right h)
    · exact Or.inl (max_eq_left h)
  · exact lt_of_le_of_lt (min_le_left a b) ha
  · exact max_lt ha hb
  · exact min_le_left a b
  · exact min_le_right a b
  · exact le_max_left a b
  · exact le_max_right a b
  · exact min_comm a b
  · exact max_comm a b
  · rw [min_add_max]

/-- Witness of C20 at the largest 64-bit value and 7. -/
theorem minUint64_maxUint64_spec_witness :
    18446744073709551615 < 2 ^ 64 ∧ 7 < 2 ^ 64
    ∧ minUint64 18446744073709551615 7 = 7
    ∧ maxUint64 18446744073709551615 7 = 18446744073709551615
    ∧ (minUint64 18446744073709551615 7 + maxUint64 18446744073709551615 7) % 2 ^ 64
        = (18446744073709551615 + 7) % 2 ^ 64 :=
  ⟨by norm_num, by norm_num, by decide, by decide,
    (minUint64_maxUint64_spec 18446744073709551615 7 (by norm_num)
      (by norm_num)).2.2.2.2.2.2.2.2.2.2⟩

/-! ### Runs on the example snapshots -/

/-- On `exampleRegionCluster` the run of `scheduleRemovePeer` returns region 10
with its peer 102 on store 1, after the selection and the follower lookup. -/
theorem scheduleRemovePeer_example :
    (scheduleRemovePeer exampleRegionCluster "balance-region" exampleSelector []
        exampleWorld).1
      = (some { Id := 10, Peers := [{ Id := 101, StoreId := 2 }, { Id := 102, StoreId := 1 }],
                Leader := some { Id := 101, StoreId := 2 } },
         some { Id := 102, StoreId := 1 })
    ∧ (scheduleRemovePeer exampleRegionCluster "balance-region" exampleSelector []
        exampleWorld).2.trace
      = [Event.selectSource, Event.randFollowerRegion 1] := by
  constructor <;> rfl

/-- Up stores with counts 1 and 5 have mean 3, variance 4 and deviation 2: the
limit is 2, whatever the down store reports. -/
theorem adjustBalanceLimit_example :
    adjustBalanceLimit (exampleCluster [exampleStore 1 true 1, exampleStore 2 true 5,
        exampleStore 3 false 100]) ResourceKind.RegionKind = 2 := by
  rw [adjustBalanceLimit_eq_upCounts]
  have hv : PopulationVariance (upCounts (exampleCluster [exampleStore 1 true 1,
      exampleStore 2 true 5, exampleStore 3 false 100]) ResourceKind.RegionKind) = 4 := by
    simp [upCounts, exampleCluster, exampleStore, PopulationVariance, Mean]
    norm_num
  have hf : ⌊(4 : ℚ)⌋₊ = 4 := by
    rw [Nat.floor_eq_iff (by norm_num)]; norm_num
  have hs : Nat.sqrt 4 = 2 := by norm_num
  simp [StandardDeviation, upCounts, exampleCluster, exampleStore] at hv ⊢
  simp [hv, Root.toUint64, hf, hs, maxUint64]

/-- On a snapshot with store 4 the run of `scheduleAddPeer` returns the peer
with identifier 0 on store 4 after the selection and one allocation, and the
allocation state moves from 0 to 1. -/
theorem scheduleAddPeer_example :
    (scheduleAddPeer (exampleCluster [exampleStore 4 true 2]) exampleSelector []
        exampleWorld).1 = some { Id := 0, StoreId := 4 }
    ∧ (scheduleAddPeer (exampleCluster [exampleStore 4 true 2]) exampleSelector []
        exampleWorld).2.trace = [Event.selectTarget, Event.allocPeer 4]
    ∧ (scheduleAddPeer (exampleCluster [exampleStore 4 true 2]) exampleSelector []
        exampleWorld).2.allocState = 1 := by
  refine ⟨rfl, rfl, rfl⟩

/-- With a failing allocation the run of `scheduleAddPeer` returns no peer and
logs the failure after the single allocation call. -/
theorem scheduleAddPeer_failing_example :
    (scheduleAddPeer (exampleFailingCluster [exampleStore 4 true 2]) exampleSelector []
        exampleWorld).1 = none
    ∧ (scheduleAddPeer (exampleFailingCluster [exampleStore 4 true 2]) exampleSelector []
        exampleWorld).2.trace
      = [Event.selectTarget, Event.allocPeer 4,
          Event.logErrorf "failed to allocate peer: %v" "no identifier left"] := by
  refine ⟨rfl, rfl⟩

/-- A store put into the fresh cache at time 0 is tainted 300 seconds later and
no longer one nanosecond after that; a sweep at that time removes its entry. -/
theorem newTaintCache_example :
    (newTaintCache.Put 3 0).IsTainted 3 300000000000 = true
    ∧ (newTaintCache.Put 3 0).IsTainted 3 300000000001 = false
    ∧ ((newTaintCache.Put 3 0).sweep 300000000001).items = [] := by
  refine ⟨by decide, by decide, by decide⟩

end Schedulers
